import Mathlib

/-!
# Verification of the create-viant-app configuration-derivation and generation core

Shallow embedding of the scaffolder's core: the JSON/manifest data model,
the error taxonomy (`categorizeError`), the cleanup operation
(`cleanupProject`), package-manager detection, the package.json
customization pipeline (`customizePackageJson` and its helpers), the
strict-TypeScript tsconfig rewrite, the PWA vite-config rewrite, and the
generation transaction (`ProjectGenerator.generate`) modelled over an
abstract filesystem.

JavaScript objects are modelled as ordered association lists with
first-match lookup and in-place update (matching post-`JSON.parse` object
semantics: unique keys, insertion order preserved, new keys appended).
JavaScript strict-mode property creation on a non-object primitive throws;
this is modelled with `Except`.
-/

set_option maxHeartbeats 1000000

/-! ## JSON values and JavaScript object operations -/

/-- JSON values as produced by `JSON.parse`.  Objects are ordered key/value
lists with unique keys; numbers are restricted to the naturals, which covers
every numeric field occurring in this domain's manifests. -/
inductive Json where
  | null : Json
  | bool (b : Bool) : Json
  | num (n : Nat) : Json
  | str (s : String) : Json
  | arr (elems : List Json) : Json
  | obj (fields : List (String × Json)) : Json

/-- First-match field lookup, `o[k]` on a parsed JSON object
(`undefined` is `none`). -/
def getField : List (String × Json) → String → Option Json
  | [], _ => none
  | (k, v) :: rest, key => if k = key then some v else getField rest key

/-- `o[k] = v` on a parsed JSON object: replace in place if the key exists,
append otherwise (JavaScript property-assignment order semantics). -/
def setField : List (String × Json) → String → Json → List (String × Json)
  | [], key, v => [(key, v)]
  | (k, w) :: rest, key, v =>
      if k = key then (k, v) :: rest else (k, w) :: setField rest key v

/-- JavaScript truthiness of a JSON value. -/
def truthy : Json → Bool
  | .null => false
  | .bool b => b
  | .num n => n != 0
  | .str s => !s.isEmpty
  | .arr _ => true
  | .obj _ => true

/-- The JavaScript `x || d` default idiom applied to a field read. -/
def jsOr (x : Option Json) (d : Json) : Json :=
  match x with
  | some v => if truthy v then v else d
  | none => d

/-- `typeof v === 'object' && v !== null` (arrays included, as in
JavaScript). -/
def isJsObject : Json → Bool
  | .obj _ => true
  | .arr _ => true
  | _ => false

/-- A parsed `package.json` (top-level JSON object). -/
abbrev Pkg := List (String × Json)

/-- Strict-mode nested write `pkg[field][key] = v`.  Creating a property on
a primitive throws a `TypeError` in strict mode (ES modules); reading a
property of `undefined` also throws.  A named property created on an array
is dropped by `JSON.stringify`, so for the written manifest the array case
is a no-op. -/
def setNested (pkg : Pkg) (field key : String) (v : Json) : Except String Pkg :=
  match getField pkg field with
  | some (.obj m) => .ok (setField pkg field (.obj (setField m key v)))
  | some (.arr _) => .ok pkg
  | some _ => .error ("TypeError: cannot create property on " ++ field)
  | none => .error ("TypeError: cannot read properties of undefined: " ++ field)

/-- Lookup of an entry inside a top-level object-valued field
(`pkg[field][key]` when `pkg[field]` is an object). -/
def innerGet (pkg : Pkg) (field key : String) : Option Json :=
  match getField pkg field with
  | some (.obj m) => getField m key
  | _ => none

/-! ## Error taxonomy (src/errorHandling: `ERROR_CODES`, `categorizeError`) -/

/-- The closed set of error codes, `ERROR_CODES`. -/
inductive ErrorCode where
  | INVALID_NAME
  | DIR_EXISTS
  | TEMPLATE_NOT_FOUND
  | COPY_FAILED
  | INSTALL_FAILED
  | GIT_FAILED
  | PACKAGE_JSON_INVALID
  | CONFIG_FAILED
  | PERMISSION_DENIED
  | DISK_FULL
  | UNKNOWN
deriving DecidableEq, Repr

/-- All eleven error codes. -/
def allErrorCodes : List ErrorCode :=
  [.INVALID_NAME, .DIR_EXISTS, .TEMPLATE_NOT_FOUND, .COPY_FAILED, .INSTALL_FAILED,
   .GIT_FAILED, .PACKAGE_JSON_INVALID, .CONFIG_FAILED, .PERMISSION_DENIED,
   .DISK_FULL, .UNKNOWN]

/-- Substring test on character lists (`String.prototype.includes`). -/
def containsSub (hay pat : List Char) : Bool :=
  if pat.isPrefixOf hay then true
  else
    match hay with
    | [] => false
    | _ :: t => containsSub t pat

/-- `hay.includes(pat)` on strings. -/
def strContains (hay pat : String) : Bool :=
  containsSub hay.toList pat.toList

/-- `s.toLowerCase()` (ASCII, which covers every pattern inspected). -/
def lowerStr (s : String) : String :=
  String.mk (s.toList.map Char.toLower)

/-- `categorizeError`: categorize a generic error by case-insensitive
substring inspection of its message, in source order, falling back to
`UNKNOWN`. -/
def categorizeError (message : String) : ErrorCode :=
  let m := lowerStr message
  if strContains m "eexist" || strContains m "already exists" then .DIR_EXISTS
  else if strContains m "enoent" || strContains m "not found" || strContains m "no such file" then .TEMPLATE_NOT_FOUND
  else if strContains m "eacces" || strContains m "permission denied" then .PERMISSION_DENIED
  else if strContains m "enospc" || strContains m "no space left" || strContains m "disk full" then .DISK_FULL
  else if strContains m "copy" || strContains m "failed to copy" then .COPY_FAILED
  else if strContains m "install" || strContains m "npm" || strContains m "yarn" || strContains m "pnpm" then .INSTALL_FAILED
  else if strContains m "git" then .GIT_FAILED
  else if strContains m "package.json" || strContains m "json" then .PACKAGE_JSON_INVALID
  else if strContains m "config" || strContains m "configuration" then .CONFIG_FAILED
  else .UNKNOWN

/-- Every substring whose presence (case-insensitively) in the message
causes a non-`UNKNOWN` categorization. -/
def knownErrorSubstrings : List String :=
  ["eexist", "already exists", "enoent", "not found", "no such file",
   "eacces", "permission denied", "enospc", "no space left", "disk full",
   "copy", "failed to copy", "install", "npm", "yarn", "pnpm", "git",
   "package.json", "json", "config", "configuration"]

/-! ## Package-manager detection (index.js `detectPackageManagers`) -/

/-- The fixed global preference order probed by `detectPackageManagers`. -/
def PACKAGE_MANAGER_ORDER : List String := ["bun", "pnpm", "yarn", "npm"]

/-- The probing loop of `detectPackageManagers`: try each command in order,
keep the ones whose `--version` probe succeeds (`avail`), accumulating by
push. -/
def detectLoop (avail : String → Bool) : List String → List String
  | [] => []
  | cmd :: rest =>
      if avail cmd then cmd :: detectLoop avail rest
      else detectLoop avail rest

/-- `detectPackageManagers`, parametrized by which probes succeed:
collect available managers in preference order; fall back to `npm` when
none is available. -/
def detectPackageManagers (avail : String → Bool) : List String :=
  let managers := detectLoop avail PACKAGE_MANAGER_ORDER
  if managers.length > 0 then managers else ["npm"]

/-! ## Abstract filesystem and cleanup (src/errorHandling `cleanupProject`) -/

/-- A filesystem is the set of existing paths (files and directories). -/
abbrev FS := List String

/-- `existsSync`. -/
def pathExists (fs : FS) (p : String) : Bool := fs.contains p

/-- `q` is `root` itself or lies strictly below it. -/
def descOrSelf (root q : String) : Bool :=
  q = root || (root ++ "/").toList.isPrefixOf q.toList

/-- Recursive removal of a path and all of its descendants
(`rmSync(p, { recursive: true, force: true })` when it succeeds). -/
def rmRecursive (fs : FS) (p : String) : FS :=
  fs.filter (fun q => !descOrSelf p q)

/-- The outcome of one `rmSync` call: an optional thrown error message,
and the filesystem afterwards. -/
abbrev RmBehavior := FS → String → Option String × FS

/-- The non-throwing removal behavior. -/
def realRm : RmBehavior := fun fs p => (none, rmRecursive fs p)

/-- `CleanupResult`. -/
structure CleanupResult where
  success : Bool
  path : String
  existed : Bool
  error : Option String
deriving DecidableEq, Repr

/-- `cleanupProject`: succeed trivially when the path does not exist;
otherwise remove recursively, re-check existence, and succeed exactly when
the path is gone, reporting a "still exists" message or the thrown cause
otherwise. -/
def cleanupProject (rm : RmBehavior) (fs : FS) (p : String) : CleanupResult × FS :=
  let existed := pathExists fs p
  if !existed then
    ({ success := true, path := p, existed := false, error := none }, fs)
  else
    match rm fs p with
    | (none, fs') =>
        let stillExists := pathExists fs' p
        ({ success := !stillExists, path := p, existed := true,
           error := if stillExists then some "Directory still exists after cleanup attempt" else none }, fs')
    | (some e, fs') =>
        ({ success := false, path := p, existed := true, error := some e }, fs')

/-! ## Selection and Version Registry -/

/-- `ProjectOptions`: the fully validated Selection driving generation. -/
structure ProjectOptions where
  name : String
  template : String
  styling : String
  packageManager : String
  features : List String
  installDeps : Bool
  initGit : Bool
  typescript : Bool
  runDev : Bool
  framework : String
  stateManagement : Option String
  apiClient : Option String
deriving DecidableEq, Repr

/-- The Version Registry (`VERSIONS`): a read-only table of version-range
strings, injected into the builder.  Only the keys the builder reads are
modelled. -/
structure Versions where
  tailwindcss : String
  styledComponents : String
  emotion : String
  emotionStyled : String
  sass : String
  vanillaExtract : String
  vanillaExtractVitePlugin : String
  unocss : String
  vitePluginPWA : String
  rollupPluginVisualizer : String
  vitest : String
  vitestUi : String
  playwright : String
  biome : String
  storybook : String
  husky : String
  lintStaged : String
  reactI18next : String
  i18next : String
  vueI18n : String
  react : String
  reactDom : String
  vitePluginReactSWC : String
  typesReact : String
  typesReactDom : String
  preact : String
  preactPresetVite : String
  typesNode : String
  vue : String
  vitePluginVue : String
  vueTsc : String
  svelte : String
  vitePluginSvelte : String
  tsconfigSvelte : String
  tslib : String
  svelteCheck : String
  solid : String
  vitePluginSolid : String
  reduxToolkit : String
  reactRedux : String
  zustand : String
  jotai : String
  valtio : String
  pinia : String
  tanstackQuery : String
  tanstackQueryDevtools : String
  swr : String
  axios : String
deriving DecidableEq, Repr

/-- A concrete registry instance used to evaluate the model on concrete
inputs (the builder is parametric in it). -/
def sampleVersions : Versions where
  tailwindcss := "^4.0.0"
  styledComponents := "^6.1.0"
  emotion := "^11.11.0"
  emotionStyled := "^11.11.0"
  sass := "^1.69.0"
  vanillaExtract := "^1.14.0"
  vanillaExtractVitePlugin := "^4.0.0"
  unocss := "^0.58.0"
  vitePluginPWA := "^0.17.0"
  rollupPluginVisualizer := "^5.12.0"
  vitest := "^1.2.0"
  vitestUi := "^1.2.0"
  playwright := "^1.41.0"
  biome := "^1.5.0"
  storybook := "^7.6.0"
  husky := "^9.0.0"
  lintStaged := "^15.2.0"
  reactI18next := "^14.0.0"
  i18next := "^23.7.0"
  vueI18n := "^9.9.0"
  react := "^18.2.0"
  reactDom := "^18.2.0"
  vitePluginReactSWC := "^3.5.0"
  typesReact := "^18.2.0"
  typesReactDom := "^18.2.0"
  preact := "^10.19.0"
  preactPresetVite := "^2.8.0"
  typesNode := "^20.11.0"
  vue := "^3.4.0"
  vitePluginVue := "^5.0.0"
  vueTsc := "^1.8.0"
  svelte := "^4.2.0"
  vitePluginSvelte := "^3.0.0"
  tsconfigSvelte := "^5.0.0"
  tslib := "^2.6.0"
  svelteCheck := "^3.6.0"
  solid := "^1.8.0"
  vitePluginSolid := "^2.9.0"
  reduxToolkit := "^2.1.0"
  reactRedux := "^9.1.0"
  zustand := "^4.5.0"
  jotai := "^2.6.0"
  valtio := "^1.13.0"
  pinia := "^2.1.0"
  tanstackQuery := "^5.18.0"
  tanstackQueryDevtools := "^5.18.0"
  swr := "^2.2.0"
  axios := "^1.6.0"

/-- Truthiness of an optional field read (`!pkg.x` tests). -/
def truthyOpt (x : Option Json) : Bool :=
  match x with
  | some v => truthy v
  | none => false

/-- Truthiness of an optional string (`if (this.options.stateManagement)`). -/
def truthyOptStr (x : Option String) : Bool :=
  match x with
  | some s => !s.isEmpty
  | none => false

/-! ## Manifest builder (`ProjectGenerator.customizePackageJson` and helpers) -/

/-- `addStylingDependencies`. -/
def addStylingDependencies (V : Versions) (o : ProjectOptions) (pkg0 : Pkg) :
    Except String Pkg := do
  let pkg := setField pkg0 "devDependencies" (jsOr (getField pkg0 "devDependencies") (.obj []))
  let pkg := setField pkg "dependencies" (jsOr (getField pkg "dependencies") (.obj []))
  let pkg ← if o.typescript then setNested pkg "devDependencies" "ts-node" (.str "^10.9.1") else pure pkg
  match o.styling with
  | "tailwind" => do
      let pkg ← setNested pkg "dependencies" "clsx" (.str "^2.0.0")
      setNested pkg "devDependencies" "tailwindcss" (.str V.tailwindcss)
  | "styled-components" => do
      let pkg ← setNested pkg "dependencies" "styled-components" (.str V.styledComponents)
      if o.typescript then setNested pkg "devDependencies" "@types/styled-components" (.str "^5.1.32") else pure pkg
  | "emotion" => do
      let pkg ← setNested pkg "dependencies" "@emotion/react" (.str V.emotion)
      let pkg ← setNested pkg "dependencies" "@emotion/styled" (.str V.emotionStyled)
      if o.framework = "react" then setNested pkg "devDependencies" "@emotion/babel-plugin" (.str "^11.11.0") else pure pkg
  | "sass" => setNested pkg "devDependencies" "sass" (.str V.sass)
  | "less" => setNested pkg "devDependencies" "less" (.str "^4.2.0")
  | "stylus" => setNested pkg "devDependencies" "stylus" (.str "^0.62.0")
  | "vanilla-extract" => do
      let pkg ← setNested pkg "devDependencies" "@vanilla-extract/css" (.str V.vanillaExtract)
      setNested pkg "devDependencies" "@vanilla-extract/vite-plugin" (.str V.vanillaExtractVitePlugin)
  | "unocss" => do
      let pkg ← setNested pkg "devDependencies" "unocss" (.str V.unocss)
      setNested pkg "devDependencies" "@unocss/reset" (.str V.unocss)
  | _ => pure pkg

/-- `addFrameworkDependencies`. -/
def addFrameworkDependencies (V : Versions) (o : ProjectOptions) (pkg : Pkg) :
    Except String Pkg := do
  match o.framework with
  | "react" => do
      let pkg ← setNested pkg "dependencies" "react" (.str V.react)
      let pkg ← setNested pkg "dependencies" "react-dom" (.str V.reactDom)
      let pkg ← setNested pkg "devDependencies" "@vitejs/plugin-react-swc" (.str V.vitePluginReactSWC)
      if o.typescript then do
        let pkg ← setNested pkg "devDependencies" "@types/react" (.str V.typesReact)
        setNested pkg "devDependencies" "@types/react-dom" (.str V.typesReactDom)
      else pure pkg
  | "preact" => do
      let pkg ← setNested pkg "dependencies" "preact" (.str V.preact)
      let pkg ← setNested pkg "devDependencies" "@preact/preset-vite" (.str V.preactPresetVite)
      if o.typescript then setNested pkg "devDependencies" "@types/node" (.str V.typesNode) else pure pkg
  | "vue" => do
      let pkg ← setNested pkg "dependencies" "vue" (.str V.vue)
      let pkg ← setNested pkg "devDependencies" "@vitejs/plugin-vue" (.str V.vitePluginVue)
      if o.typescript then setNested pkg "devDependencies" "vue-tsc" (.str V.vueTsc) else pure pkg
  | "svelte" => do
      let pkg ← setNested pkg "dependencies" "svelte" (.str V.svelte)
      let pkg ← setNested pkg "devDependencies" "@sveltejs/vite-plugin-svelte" (.str V.vitePluginSvelte)
      if o.typescript then do
        let pkg ← setNested pkg "devDependencies" "@tsconfig/svelte" (.str V.tsconfigSvelte)
        let pkg ← setNested pkg "devDependencies" "tslib" (.str V.tslib)
        setNested pkg "devDependencies" "svelte-check" (.str V.svelteCheck)
      else pure pkg
  | "solid" => do
      let pkg ← setNested pkg "dependencies" "solid-js" (.str V.solid)
      let pkg ← setNested pkg "devDependencies" "vite-plugin-solid" (.str V.vitePluginSolid)
      if o.typescript then setNested pkg "devDependencies" "@types/node" (.str V.typesNode) else pure pkg
  | _ => pure pkg

/-- `getStorybookFramework`. -/
def getStorybookFramework (o : ProjectOptions) : String :=
  match o.framework with
  | "react" => "react"
  | "preact" => "preact"
  | "vue" => "vue3"
  | "svelte" => "svelte"
  | "solid" => "solid"
  | _ => "react"

/-- `addStateManagementDependencies`. -/
def addStateManagementDependencies (V : Versions) (o : ProjectOptions) (pkg : Pkg) :
    Except String Pkg := do
  match o.stateManagement with
  | some "redux-toolkit" => do
      let pkg ← setNested pkg "dependencies" "@reduxjs/toolkit" (.str V.reduxToolkit)
      setNested pkg "dependencies" "react-redux" (.str V.reactRedux)
  | some "zustand" => setNested pkg "dependencies" "zustand" (.str V.zustand)
  | some "jotai" => setNested pkg "dependencies" "jotai" (.str V.jotai)
  | some "valtio" => setNested pkg "dependencies" "valtio" (.str V.valtio)
  | some "pinia" => setNested pkg "dependencies" "pinia" (.str V.pinia)
  | some "vuex" => setNested pkg "dependencies" "vuex" (.str "^4.1.0")
  | _ => pure pkg

/-- `addApiClientDependencies`. -/
def addApiClientDependencies (V : Versions) (o : ProjectOptions) (pkg : Pkg) :
    Except String Pkg := do
  match o.apiClient with
  | some "axios" => setNested pkg "dependencies" "axios" (.str V.axios)
  | some "tanstack-query" => do
      let pkg ← setNested pkg "dependencies" "@tanstack/react-query" (.str V.tanstackQuery)
      setNested pkg "devDependencies" "@tanstack/react-query-devtools" (.str V.tanstackQueryDevtools)
  | some "swr" => setNested pkg "dependencies" "swr" (.str V.swr)
  | some "trpc" => do
      let pkg ← setNested pkg "dependencies" "@trpc/client" (.str "^10.45.0")
      let pkg ← setNested pkg "dependencies" "@trpc/server" (.str "^10.45.0")
      if o.framework = "react" then setNested pkg "dependencies" "@trpc/react-query" (.str "^10.45.0") else pure pkg
  | _ => pure pkg

/-- `addI18nDependencies`. -/
def addI18nDependencies (V : Versions) (o : ProjectOptions) (pkg : Pkg) :
    Except String Pkg := do
  match o.framework with
  | "react" => do
      let pkg ← setNested pkg "dependencies" "react-i18next" (.str V.reactI18next)
      setNested pkg "dependencies" "i18next" (.str V.i18next)
  | "preact" => do
      let pkg ← setNested pkg "dependencies" "react-i18next" (.str V.reactI18next)
      setNested pkg "dependencies" "i18next" (.str V.i18next)
  | "vue" => setNested pkg "dependencies" "vue-i18n" (.str V.vueI18n)
  | "svelte" => setNested pkg "dependencies" "svelte-i18n" (.str "^4.0.1")
  | "solid" => setNested pkg "dependencies" "@solid-primitives/i18n" (.str "^2.1.1")
  | _ => pure pkg

/-- `addFeatureDependencies`. -/
def addFeatureDependencies (V : Versions) (o : ProjectOptions) (pkg0 : Pkg) :
    Except String Pkg :=
  let pkg := setField pkg0 "dependencies" (jsOr (getField pkg0 "dependencies") (.obj []))
  let pkg := setField pkg "devDependencies" (jsOr (getField pkg "devDependencies") (.obj []))
  let pkg := setField pkg "scripts" (jsOr (getField pkg "scripts") (.obj []))
  addFrameworkDependencies V o pkg >>= fun pkg =>
  (if o.features.contains "pwa" then
      setNested pkg "devDependencies" "vite-plugin-pwa" (.str V.vitePluginPWA)
    else pure pkg) >>= fun pkg =>
  (if o.features.contains "analyzer" then do
      let pkg ← setNested pkg "devDependencies" "rollup-plugin-visualizer" (.str V.rollupPluginVisualizer)
      setNested pkg "scripts" "analyze" (.str "vite build --mode analyze")
    else pure pkg) >>= fun pkg =>
  (if o.features.contains "vitest" then do
      let pkg ← setNested pkg "devDependencies" "vitest" (.str V.vitest)
      let pkg ← setNested pkg "devDependencies" "@vitest/ui" (.str V.vitestUi)
      let pkg ← setNested pkg "scripts" "test" (.str "vitest")
      setNested pkg "scripts" "test:ui" (.str "vitest --ui")
    else pure pkg) >>= fun pkg =>
  (if o.features.contains "playwright" then do
      let pkg ← setNested pkg "devDependencies" "@playwright/test" (.str V.playwright)
      setNested pkg "scripts" "test:e2e" (.str "playwright test")
    else pure pkg) >>= fun pkg =>
  (if o.features.contains "linting" then do
      let pkg ← setNested pkg "devDependencies" "@biomejs/biome" (.str V.biome)
      let pkg ← setNested pkg "scripts" "lint" (.str "biome lint .")
      let pkg ← setNested pkg "scripts" "lint:fix" (.str "biome lint --write .")
      setNested pkg "scripts" "format" (.str "biome format --write .")
    else pure pkg) >>= fun pkg =>
  (if o.features.contains "storybook" then do
      let sb := getStorybookFramework o
      let pkg ← setNested pkg "devDependencies" ("@storybook/" ++ sb) (.str V.storybook)
      let pkg ← setNested pkg "devDependencies" ("@storybook/" ++ sb ++ "-vite") (.str V.storybook)
      let pkg ← setNested pkg "devDependencies" "@storybook/addon-essentials" (.str V.storybook)
      let pkg ← setNested pkg "scripts" "storybook" (.str "storybook dev -p 6006")
      setNested pkg "scripts" "build-storybook" (.str "storybook build")
    else pure pkg) >>= fun pkg =>
  (if o.features.contains "husky" then do
      let pkg ← setNested pkg "devDependencies" "husky" (.str V.husky)
      let pkg ← setNested pkg "devDependencies" "lint-staged" (.str V.lintStaged)
      setNested pkg "scripts" "prepare" (.str "husky install")
    else pure pkg) >>= fun pkg =>
  (if o.features.contains "i18n" then addI18nDependencies V o pkg else pure pkg) >>= fun pkg =>
  (if truthyOptStr o.stateManagement then addStateManagementDependencies V o pkg else pure pkg) >>=
    fun pkg =>
  if truthyOptStr o.apiClient then addApiClientDependencies V o pkg else pure pkg

/-- Sequential required-field presence check of `validatePackageJson`. -/
def checkRequired (pkg : Pkg) : List String → Except String Unit
  | [] => .ok ()
  | f :: rest =>
      if (getField pkg f).isNone then
        .error ("Missing required field in package.json: " ++ f)
      else checkRequired pkg rest

/-- JavaScript whitespace for `String.prototype.trim`. -/
def jsWs (c : Char) : Bool :=
  c = ' ' || c = '\t' || c = '\n' || c = '\r'

/-- JavaScript `name.trim()`, modelled over the character list:
whitespace stripped from both ends. -/
def trimStr (s : String) : String :=
  String.mk ((s.toList.dropWhile jsWs).reverse.dropWhile jsWs).reverse

/-- The name check of `validatePackageJson`: a non-blank string. -/
def checkName (pkg : Pkg) : Except String Unit :=
  match getField pkg "name" with
  | some (.str s) =>
      if trimStr s = "" then .error "package.json name must be a non-empty string" else .ok ()
  | _ => .error "package.json name must be a non-empty string"

/-- The version check of `validatePackageJson`: a string. -/
def checkVersion (pkg : Pkg) : Except String Unit :=
  match getField pkg "version" with
  | some (.str _) => .ok ()
  | _ => .error "package.json version must be a string"

/-- The type check of `validatePackageJson`: exactly "module". -/
def checkType (pkg : Pkg) : Except String Unit :=
  match getField pkg "type" with
  | some (.str s) =>
      if s = "module" then .ok () else .error "package.json type must be \"module\" for ESM support"
  | _ => .error "package.json type must be \"module\" for ESM support"

/-- The object-type check of `validatePackageJson` for one of the three
mapping fields (JavaScript `typeof`, so arrays qualify). -/
def checkObjField (pkg : Pkg) (f : String) : Except String Unit :=
  match getField pkg f with
  | some v =>
      if isJsObject v then .ok () else .error ("package.json " ++ f ++ " must be an object")
  | none => .error ("package.json " ++ f ++ " must be an object")

/-- `validatePackageJson`: required fields present, name a non-blank
string, version a string, type exactly "module", and the three mapping
fields of object type, checked in source order with early throw. -/
def validatePkg (pkg : Pkg) : Except String Unit :=
  checkRequired pkg ["name", "version", "type", "scripts", "dependencies", "devDependencies"] >>=
    fun _ =>
  checkName pkg >>= fun _ =>
  checkVersion pkg >>= fun _ =>
  checkType pkg >>= fun _ =>
  checkObjField pkg "scripts" >>= fun _ =>
  checkObjField pkg "dependencies" >>= fun _ =>
  checkObjField pkg "devDependencies"

/-- `customizePackageJson`: when the copied template supplied no
`package.json` the step is a no-op (`.ok none`); otherwise normalize the
required fields, layer styling and feature dependencies, validate, and
produce the manifest that is written to disk. -/
def customizePackageJson (V : Versions) (o : ProjectOptions) (tpl : Option Pkg) :
    Except String (Option Pkg) :=
  match tpl with
  | none => .ok none
  | some pkg0 => do
      let pkg := setField pkg0 "name" (.str o.name)
      let pkg := setField pkg "version" (jsOr (getField pkg "version") (.str "1.0.0"))
      let pkg := setField pkg "type" (.str "module")
      let pkg := setField pkg "scripts" (jsOr (getField pkg "scripts") (.obj []))
      let pkg := setField pkg "dependencies" (jsOr (getField pkg "dependencies") (.obj []))
      let pkg := setField pkg "devDependencies" (jsOr (getField pkg "devDependencies") (.obj []))
      let pkg :=
        if !truthyOpt (getField pkg "description") then
          setField pkg "description" (.str ("Modern " ++ o.framework ++ " app built with Viant CLI"))
        else pkg
      let pkg := if !truthyOpt (getField pkg "license") then setField pkg "license" (.str "MIT") else pkg
      let pkg ← addStylingDependencies V o pkg
      let pkg ← addFeatureDependencies V o pkg
      validatePkg pkg
      return some pkg

/-! ## JSON serialization and parsing (model of `JSON.stringify`/`JSON.parse`)

The written manifest is serialized with `JSON.stringify` and read back with
`JSON.parse`.  The model serializes compactly and parses with a
recursive-descent parser that skips whitespace; strings are restricted to
escape-free content (no quote, no backslash, no control characters), which
covers every string the builder emits. -/

/-- Decimal digits of a natural number, most significant first. -/
def natDigits (n : Nat) : List Char :=
  if n < 10 then [Nat.digitChar n]
  else natDigits (n / 10) ++ [Nat.digitChar (n % 10)]
termination_by n
decreasing_by exact Nat.div_lt_self (by omega) (by omega)

/-- A string needing no JSON escaping. -/
def safeStr (s : String) : Bool :=
  s.toList.all (fun c => !(c = '"' || c = '\\' || c.toNat < 32))

mutual

/-- Escape-free JSON value: every string and key needs no escaping. -/
def safeJson : Json → Bool
  | .null => true
  | .bool _ => true
  | .num _ => true
  | .str s => safeStr s
  | .arr xs => safeArr xs
  | .obj kvs => safeFields kvs

def safeArr : List Json → Bool
  | [] => true
  | x :: r => safeJson x && safeArr r

def safeFields : List (String × Json) → Bool
  | [] => true
  | (k, v) :: r => safeStr k && safeJson v && safeFields r

end

mutual

/-- Compact JSON serialization (character list). -/
def sJson : Json → List Char
  | .null => 'n' :: ['u', 'l', 'l']
  | .bool true => 't' :: ['r', 'u', 'e']
  | .bool false => 'f' :: ['a', 'l', 's', 'e']
  | .num n => natDigits n
  | .str s => '"' :: (s.toList ++ ['"'])
  | .arr [] => ['[', ']']
  | .arr (x :: r) => '[' :: (sJson x ++ sTail r)
  | .obj [] => ['{', '}']
  | .obj ((k, v) :: r) => '{' :: '"' :: (k.toList ++ '"' :: ':' :: (sJson v ++ fTail r))

/-- Serialized tail of an array: `,`-separated items then `]`. -/
def sTail : List Json → List Char
  | [] => [']']
  | y :: r => ',' :: (sJson y ++ sTail r)

/-- Serialized tail of an object: `,`-separated members then `}`. -/
def fTail : List (String × Json) → List Char
  | [] => ['}']
  | (k, v) :: r => ',' :: '"' :: (k.toList ++ '"' :: ':' :: (sJson v ++ fTail r))

end

/-- `JSON.stringify` of the manifest (compact form). -/
def stringifyJson (v : Json) : String :=
  String.mk (sJson v)

/-- JSON whitespace. -/
def isWsChar (c : Char) : Bool :=
  c = ' ' || c = '\n' || c = '\t' || c = '\r'

/-- Skip leading whitespace. -/
def skipWs (cs : List Char) : List Char :=
  cs.dropWhile isWsChar

/-- Numeric value of a digit run. -/
def digitsVal (ds : List Char) : Nat :=
  ds.foldl (fun a c => a * 10 + (c.toNat - 48)) 0

/-- Strip an expected literal text from the head of the input. -/
def stripLit : List Char → List Char → Option (List Char)
  | [], cs => some cs
  | _ :: _, [] => none
  | p :: ps, c :: cs => if c = p then stripLit ps cs else none

mutual

/-- Fuelled recursive-descent JSON value parser.  Returns the parsed value
and the unconsumed remainder. -/
def pVal : Nat → List Char → Option (Json × List Char)
  | 0, _ => none
  | fuel + 1, cs =>
      match skipWs cs with
      | [] => none
      | c :: rest =>
          if c = '"' then
            match rest.dropWhile (fun d => !(d = '"')) with
            | '"' :: r2 =>
                some (.str (String.mk (rest.takeWhile (fun d => !(d = '"')))), r2)
            | _ => none
          else if c = 'n' then
            match stripLit ['u', 'l', 'l'] rest with
            | some r => some (.null, r)
            | none => none
          else if c = 't' then
            match stripLit ['r', 'u', 'e'] rest with
            | some r => some (.bool true, r)
            | none => none
          else if c = 'f' then
            match stripLit ['a', 'l', 's', 'e'] rest with
            | some r => some (.bool false, r)
            | none => none
          else if c = '[' then
            match skipWs rest with
            | [] => none
            | c2 :: r2 =>
                if c2 = ']' then some (.arr [], r2)
                else
                  match pArrItems fuel (c2 :: r2) with
                  | some (xs, r3) => some (.arr xs, r3)
                  | none => none
          else if c = '{' then
            match skipWs rest with
            | [] => none
            | c2 :: r2 =>
                if c2 = '}' then some (.obj [], r2)
                else
                  match pObjItems fuel (c2 :: r2) with
                  | some (kvs, r3) => some (.obj kvs, r3)
                  | none => none
          else if c.isDigit then
            some (.num (digitsVal ((c :: rest).takeWhile Char.isDigit)),
                  (c :: rest).dropWhile Char.isDigit)
          else none

/-- Parse one array item and the remaining `,`-separated items up to `]`. -/
def pArrItems : Nat → List Char → Option (List Json × List Char)
  | 0, _ => none
  | fuel + 1, cs =>
      match pVal fuel cs with
      | some (v, r1) =>
          (match skipWs r1 with
           | [] => none
           | c :: r2 =>
               if c = ',' then
                 match pArrItems fuel r2 with
                 | some (vs, r3) => some (v :: vs, r3)
                 | none => none
               else if c = ']' then some ([v], r2)
               else none)
      | none => none

/-- Parse one object member and the remaining `,`-separated members up to
`}`. -/
def pObjItems : Nat → List Char → Option (List (String × Json) × List Char)
  | 0, _ => none
  | fuel + 1, cs =>
      match skipWs cs with
      | [] => none
      | c :: rest =>
          if c = '"' then
            match rest.dropWhile (fun d => !(d = '"')) with
            | '"' :: r1 =>
                let key := String.mk (rest.takeWhile (fun d => !(d = '"')))
                (match skipWs r1 with
                 | [] => none
                 | c2 :: r2 =>
                     if c2 = ':' then
                       match pVal fuel r2 with
                       | some (v, r3) =>
                           (match skipWs r3 with
                            | [] => none
                            | c3 :: r4 =>
                                if c3 = ',' then
                                  match pObjItems fuel r4 with
                                  | some (kvs, r5) => some ((key, v) :: kvs, r5)
                                  | none => none
                                else if c3 = '}' then some ([(key, v)], r4)
                                else none)
                       | none => none
                     else none)
            | _ => none
          else none

end

/-- `JSON.parse`: parse a complete document, rejecting trailing garbage. -/
def parseJson (s : String) : Option Json :=
  match pVal (s.toList.length + 1) s.toList with
  | some (v, rest) => if (skipWs rest).isEmpty then some v else none
  | none => none

mutual

/-- Fuel sufficient to parse the serialization of a value. -/
def jsize : Json → Nat
  | .null => 1
  | .bool _ => 1
  | .num _ => 1
  | .str _ => 1
  | .arr xs => 1 + asize xs
  | .obj kvs => 1 + fsize kvs

/-- Fuel sufficient for `pArrItems` on a serialized nonempty item list. -/
def asize : List Json → Nat
  | [] => 0
  | x :: r => 1 + max (jsize x) (asize r)

/-- Fuel sufficient for `pObjItems` on a serialized nonempty member
list. -/
def fsize : List (String × Json) → Nat
  | [] => 0
  | (_, v) :: r => 1 + max (jsize v) (fsize r)

end

/-- The remainder after a serialized value must not begin with a digit
(numbers are parsed greedily). -/
def notDigitStart : List Char → Bool
  | [] => true
  | c :: _ => !c.isDigit

/-! ## Strict TypeScript configuration (`addStrictTypeScriptConfig`) -/

/-- `addStrictTypeScriptConfig` on a parsed tsconfig document: ensure
`compilerOptions` exists, set `noUncheckedIndexedAccess` and
`exactOptionalPropertyTypes` to `true`, and write the document back.  A
truthy non-object `compilerOptions` makes the strict-mode property write
throw; the surrounding `try` catches it with a warning and the file is left
unchanged.  Named properties created on an array are dropped by
`JSON.stringify`, so that case also leaves the written document
unchanged. -/
def addStrictTsconfig (t : List (String × Json)) : List (String × Json) :=
  match getField t "compilerOptions" with
  | some (.obj m) =>
      setField t "compilerOptions"
        (.obj (setField (setField m "noUncheckedIndexedAccess" (.bool true))
          "exactOptionalPropertyTypes" (.bool true)))
  | some v =>
      if truthy v then t
      else
        setField t "compilerOptions"
          (.obj [("noUncheckedIndexedAccess", .bool true),
                 ("exactOptionalPropertyTypes", .bool true)])
  | none =>
      setField t "compilerOptions"
        (.obj [("noUncheckedIndexedAccess", .bool true),
               ("exactOptionalPropertyTypes", .bool true)])

/-- Modelled from the spec: the TypeScript templates' `tsconfig.json` is not
part of the sources here (only its property tests are).  Per the spec
(§4.2, §8) and the Property 10/11 tests, every typed template's tsconfig
enables `strict` and maps the alias `@/*` to `./src/*` under `baseUrl`
`"."`, alongside further ordinary compiler options. -/
def templateTsconfig : List (String × Json) :=
  [("compilerOptions", .obj
      [("target", .str "ES2022"),
       ("module", .str "ESNext"),
       ("moduleResolution", .str "bundler"),
       ("strict", .bool true),
       ("noUnusedLocals", .bool true),
       ("noUnusedParameters", .bool true),
       ("noFallthroughCasesInSwitch", .bool true),
       ("baseUrl", .str "."),
       ("paths", .obj [("@/*", .arr [.str "./src/*"])])]),
   ("include", .arr [.str "src"])]

/-- The type-check document a typed-language Selection ends up with: the
template's tsconfig, rewritten by `addStrictTypeScriptConfig` exactly when
the `strict-ts` feature is selected (the rewrite is guarded by
`features.includes('strict-ts') && typescript`). -/
def generatedTsconfig (o : ProjectOptions) : List (String × Json) :=
  if o.features.contains "strict-ts" && o.typescript then
    addStrictTsconfig templateTsconfig
  else templateTsconfig

/-! ## PWA vite-config rewrite (`updateViteConfigForPWA`) -/

/-- The import statement spliced in for the PWA plugin. -/
def pwaImportStatement : String :=
  "import \x7b VitePWA \x7d from 'vite-plugin-pwa';\n"

/-- The plugin configuration block spliced into the `plugins: [` array,
with the project name interpolated. -/
def pwaPluginConfig (name : String) : String :=
  "\n    VitePWA(\x7b\n      registerType: 'autoUpdate',\n      includeAssets: ['favicon.ico', 'apple-touch-icon.png', 'mask-icon.svg'],\n      manifest: \x7b\n        name: '" ++ name ++
  "',\n        short_name: '" ++ name ++
  "',\n        description: '" ++ name ++
  " - A Progressive Web App',\n        theme_color: '#ffffff',\n        icons: [\n          \x7b\n            src: 'pwa-192x192.png',\n            sizes: '192x192',\n            type: 'image/png'\n          \x7d,\n          \x7b\n            src: 'pwa-512x512.png',\n            sizes: '512x512',\n            type: 'image/png'\n          \x7d\n        ]\n      \x7d,\n      workbox: \x7b\n        globPatterns: ['**/*.\x7bjs,css,html,ico,png,svg,woff2\x7d'],\n        runtimeCaching: [\n          \x7b\n            urlPattern: /^https:\\/\\/fonts\\.googleapis\\.com\\/.*/i,\n            handler: 'CacheFirst',\n            options: \x7b\n              cacheName: 'google-fonts-cache',\n              expiration: \x7b\n                maxEntries: 10,\n                maxAgeSeconds: 60 * 60 * 24 * 365 // 1 year\n              \x7d,\n              cacheableResponse: \x7b\n                statuses: [0, 200]\n              \x7d\n            \x7d\n          \x7d,\n          \x7b\n            urlPattern: /^https:\\/\\/fonts\\.gstatic\\.com\\/.*/i,\n            handler: 'CacheFirst',\n            options: \x7b\n              cacheName: 'gstatic-fonts-cache',\n              expiration: \x7b\n                maxEntries: 10,\n                maxAgeSeconds: 60 * 60 * 24 * 365 // 1 year\n              \x7d,\n              cacheableResponse: \x7b\n                statuses: [0, 200]\n              \x7d\n            \x7d\n          \x7d\n        ]\n      \x7d\n    \x7d),"

/-- Split into lines, each line keeping its trailing newline (the last line
may lack one).  Concatenating the result gives back the input. -/
def splitLinesKeep : List Char → List (List Char)
  | [] => []
  | c :: cs =>
      if c = '\n' then ['\n'] :: splitLinesKeep cs
      else
        match splitLinesKeep cs with
        | [] => [[c]]
        | l :: ls => (c :: l) :: ls

/-- Is `" from "` a prefix here with at least one character following? -/
def fromAt (cs : List Char) : Bool :=
  (" from ".toList).isPrefixOf cs && cs.length ≥ 7

/-- Does `" from "` occur starting at offset ≥ 1, with a character after
it? -/
def existsFromAt : List Char → Bool
  | [] => false
  | _ :: t => fromAt t || existsFromAt t

/-- Whether a line (trailing newline kept) matches the multiline regex
`^import .+ from .+;?\n`: the line starts with `import `, contains a later
`" from "` with at least one character before and after it, and ends with a
newline.  (`.` does not match newlines; `.+ `'s greed only affects the
match extent, not whether the line matches.) -/
def lineMatchesImportRegex (l : List Char) : Bool :=
  match l.getLast? with
  | some '\n' =>
      let core := l.dropLast
      ("import ".toList).isPrefixOf core && existsFromAt (core.drop 7)
  | _ => false

/-- Insert the PWA import after the last line matching the import regex
(callers ensure some line matches). -/
def insertAfterLastImport : List (List Char) → List (List Char)
  | [] => []
  | l :: ls =>
      if ls.any lineMatchesImportRegex then l :: insertAfterLastImport ls
      else if lineMatchesImportRegex l then l :: pwaImportStatement.toList :: ls
      else l :: insertAfterLastImport ls

/-- Insert the import statement: after the last import line when one
exists, otherwise at the beginning. -/
def addPwaImport (content : List Char) : List Char :=
  let lines := splitLinesKeep content
  if lines.any lineMatchesImportRegex then (insertAfterLastImport lines).flatten
  else pwaImportStatement.toList ++ content

/-- JavaScript `\s` (the whitespace classes occurring in config files). -/
def isJsWs (c : Char) : Bool :=
  c = ' ' || c = '\t' || c = '\n' || c = '\r' || c = '\x0b' || c = '\x0c'

/-- Try to match the regex `plugins:\s*\[` at the head, returning the
matched text and the remainder. -/
def matchPluginsAt (cs : List Char) : Option (List Char × List Char) :=
  if ("plugins:".toList).isPrefixOf cs then
    let after := cs.drop 8
    match after.dropWhile isJsWs with
    | '[' :: rest => some ("plugins:".toList ++ after.takeWhile isJsWs ++ ['['], rest)
    | _ => none
  else none

/-- Insert the plugin block right after the first match of
`plugins:\s*\[`; leave the text unchanged when no match exists. -/
def insertPluginConfig (name : String) : List Char → List Char
  | [] => []
  | c :: t =>
      match matchPluginsAt (c :: t) with
      | some (consumed, rest) => consumed ++ (pwaPluginConfig name).toList ++ rest
      | none => c :: insertPluginConfig name t

/-- `updateViteConfigForPWA` as a transform of the vite config text: when
the text already mentions `vite-plugin-pwa` nothing is rewritten (the file
is not even written back); otherwise the import statement and the plugin
block are spliced in. -/
def updateViteConfigForPWA (name : String) (content : String) : String :=
  if strContains content "vite-plugin-pwa" then content
  else String.mk (insertPluginConfig name (addPwaImport content.toList))

/-! ## Generation transaction (`ProjectGenerator.generate`) -/

/-- Observable filesystem events of a generation run. -/
inductive GenEvent where
  | mkdirEvt (p : String)
  | wroteEvt (p : String)
  | cleanupEvt
deriving DecidableEq, Repr

/-- Overall outcome of a run (`process.exit(1)` in the catch block versus
normal completion). -/
inductive GenResult where
  | completed
  | failed (code : ErrorCode)
deriving DecidableEq, Repr

/-- Environment of one run: the initial filesystem and the outcomes of the
external collaborators. -/
structure GenEnv where
  fs : FS
  templateExists : Bool
  copyOk : Bool
  templatePkg : Option Pkg
  gitOk : Bool
  installExit : Nat
  devOk : Bool

/-- `ProjectGenerator.generate`: validate the target directory, copy the
template, customize files, optionally initialize git (its failures are
caught internally and only logged), optionally install dependencies (a
nonzero exit rejects the install promise), optionally start the dev
server.  Any rejection reaching the surrounding catch block triggers
`this.cleanup()` — which calls `cleanupProject` on the project path — and
exits with failure, the error code coming from the thrown
`ProjectGenerationError` or from `wrapError`-categorization of a generic
error's message.  Auxiliary config writes (styling/feature configs) are
abstracted away; `customizePackageJson` is the only writer of
`package.json`. -/
def generate (V : Versions) (o : ProjectOptions) (env : GenEnv) :
    GenResult × FS × List GenEvent :=
  if pathExists env.fs o.name then
    let (_, fsFinal) := cleanupProject realRm env.fs o.name
    (.failed .DIR_EXISTS, fsFinal, [.cleanupEvt])
  else
    let fs1 := o.name :: env.fs
    let ev1 := [GenEvent.mkdirEvt o.name]
    if !env.templateExists then
      let (_, fsFinal) := cleanupProject realRm fs1 o.name
      (.failed .TEMPLATE_NOT_FOUND, fsFinal, ev1 ++ [.cleanupEvt])
    else if !env.copyOk then
      let (_, fsFinal) := cleanupProject realRm fs1 o.name
      (.failed .COPY_FAILED, fsFinal, ev1 ++ [.cleanupEvt])
    else
      let fs2 := (o.name ++ "/src/main") :: (o.name ++ "/index.html") ::
        (o.name ++ "/.gitignore") :: fs1
      let ev2 := ev1 ++ [GenEvent.wroteEvt (o.name ++ "/src/main"),
        GenEvent.wroteEvt (o.name ++ "/index.html"),
        GenEvent.wroteEvt (o.name ++ "/.gitignore")]
      match customizePackageJson V o env.templatePkg with
      | .error _ =>
          let (_, fsFinal) := cleanupProject realRm fs2 o.name
          (.failed .PACKAGE_JSON_INVALID, fsFinal, ev2 ++ [.cleanupEvt])
      | .ok written =>
          let fs3 := match written with
            | some _ => (o.name ++ "/package.json") :: fs2
            | none => fs2
          let ev3 := match written with
            | some _ => ev2 ++ [GenEvent.wroteEvt (o.name ++ "/package.json")]
            | none => ev2
          let fs4 := if o.initGit && env.gitOk then (o.name ++ "/.git") :: fs3 else fs3
          if o.installDeps && env.installExit != 0 then
            let msg := "Dependency installation failed with code " ++ toString env.installExit
            let (_, fsFinal) := cleanupProject realRm fs4 o.name
            (.failed (categorizeError msg), fsFinal, ev3 ++ [.cleanupEvt])
          else if o.runDev && o.installDeps && !env.devOk then
            let msg := "Development server exited with code 1"
            let (_, fsFinal) := cleanupProject realRm fs4 o.name
            (.failed (categorizeError msg), fsFinal, ev3 ++ [.cleanupEvt])
          else (.completed, fs4, ev3)

/-- A sample availability oracle (bun and npm installed). -/
def sampleAvail (m : String) : Bool := m == "bun" || m == "npm"

/-- A Selection for concrete runs: no optional collaborators requested. -/
def optsPlain : ProjectOptions where
  name := "demo-app"
  template := "react-ts"
  styling := "none"
  packageManager := "npm"
  features := []
  installDeps := false
  initGit := false
  typescript := true
  runDev := false
  framework := "react"
  stateManagement := none
  apiClient := none

/-- A Selection requesting git initialization and dependency
installation. -/
def optsInstall : ProjectOptions where
  name := "demo-app"
  template := "react-js"
  styling := "none"
  packageManager := "npm"
  features := []
  installDeps := true
  initGit := true
  typescript := false
  runDev := false
  framework := "react"
  stateManagement := none
  apiClient := none

/-- A typed Selection with the `strict-ts` feature selected. -/
def optsStrict : ProjectOptions where
  name := "demo-app"
  template := "react-ts"
  styling := "none"
  packageManager := "npm"
  features := ["strict-ts"]
  installDeps := false
  initGit := false
  typescript := true
  runDev := false
  framework := "react"
  stateManagement := none
  apiClient := none

/-- Environment where the target directory (with a user file inside)
already exists before the run. -/
def envPreexisting : GenEnv where
  fs := ["demo-app", "demo-app/precious.txt"]
  templateExists := true
  copyOk := true
  templatePkg := none
  gitOk := true
  installExit := 0
  devOk := true

/-- Environment where everything succeeds except git initialization. -/
def envGitFails : GenEnv where
  fs := []
  templateExists := true
  copyOk := true
  templatePkg := none
  gitOk := false
  installExit := 0
  devOk := true

/-- Environment where everything succeeds except dependency installation,
which exits with code 1. -/
def envInstallFails : GenEnv where
  fs := []
  templateExists := true
  copyOk := true
  templatePkg := none
  gitOk := true
  installExit := 1
  devOk := true

/-! ## Write-list normal form of the dependency-assembly functions

Each dependency-adding helper is a sequence of nested writes into the three
mapping fields.  `applyWrites` folds such a sequence; the `…Writes`
functions record, per Selection, exactly the writes the corresponding
source function performs, in source order.  The builder functions are
proven equal to their write-list normal forms below. -/

/-- One nested manifest write: field, key, value. -/
abbrev ManifestWrite := String × String × Json

/-- Fold a write list over a manifest with strict-mode semantics. -/
def applyWrites : List ManifestWrite → Pkg → Except String Pkg
  | [], p => .ok p
  | (fld, key, v) :: ws, p => setNested p fld key v >>= applyWrites ws

/-- The two field normalizations opening `addStylingDependencies`. -/
def norm2 (p0 : Pkg) : Pkg :=
  let p1 := setField p0 "devDependencies" (jsOr (getField p0 "devDependencies") (.obj []))
  setField p1 "dependencies" (jsOr (getField p1 "dependencies") (.obj []))

/-- The three field normalizations opening `addFeatureDependencies`. -/
def norm3 (p0 : Pkg) : Pkg :=
  let p1 := setField p0 "dependencies" (jsOr (getField p0 "dependencies") (.obj []))
  let p2 := setField p1 "devDependencies" (jsOr (getField p1 "devDependencies") (.obj []))
  setField p2 "scripts" (jsOr (getField p2 "scripts") (.obj []))

/-- The writes of `addStylingDependencies`, in source order. -/
def stylingWrites (V : Versions) (o : ProjectOptions) : List ManifestWrite :=
  (if o.typescript then [("devDependencies", "ts-node", Json.str "^10.9.1")] else []) ++
  (match o.styling with
   | "tailwind" =>
       [("dependencies", "clsx", .str "^2.0.0"),
        ("devDependencies", "tailwindcss", .str V.tailwindcss)]
   | "styled-components" =>
       ("dependencies", "styled-components", Json.str V.styledComponents) ::
       (if o.typescript then [("devDependencies", "@types/styled-components", Json.str "^5.1.32")] else [])
   | "emotion" =>
       ("dependencies", "@emotion/react", Json.str V.emotion) ::
       ("dependencies", "@emotion/styled", Json.str V.emotionStyled) ::
       (if o.framework = "react" then [("devDependencies", "@emotion/babel-plugin", Json.str "^11.11.0")] else [])
   | "sass" => [("devDependencies", "sass", .str V.sass)]
   | "less" => [("devDependencies", "less", .str "^4.2.0")]
   | "stylus" => [("devDependencies", "stylus", .str "^0.62.0")]
   | "vanilla-extract" =>
       [("devDependencies", "@vanilla-extract/css", .str V.vanillaExtract),
        ("devDependencies", "@vanilla-extract/vite-plugin", .str V.vanillaExtractVitePlugin)]
   | "unocss" =>
       [("devDependencies", "unocss", .str V.unocss),
        ("devDependencies", "@unocss/reset", .str V.unocss)]
   | _ => [])

/-- The writes of `addFrameworkDependencies`, in source order. -/
def frameworkWrites (V : Versions) (o : ProjectOptions) : List ManifestWrite :=
  match o.framework with
  | "react" =>
      ("dependencies", "react", Json.str V.react) ::
      ("dependencies", "react-dom", Json.str V.reactDom) ::
      ("devDependencies", "@vitejs/plugin-react-swc", Json.str V.vitePluginReactSWC) ::
      (if o.typescript then
        [("devDependencies", "@types/react", Json.str V.typesReact),
         ("devDependencies", "@types/react-dom", Json.str V.typesReactDom)]
       else [])
  | "preact" =>
      ("dependencies", "preact", Json.str V.preact) ::
      ("devDependencies", "@preact/preset-vite", Json.str V.preactPresetVite) ::
      (if o.typescript then [("devDependencies", "@types/node", Json.str V.typesNode)] else [])
  | "vue" =>
      ("dependencies", "vue", Json.str V.vue) ::
      ("devDependencies", "@vitejs/plugin-vue", Json.str V.vitePluginVue) ::
      (if o.typescript then [("devDependencies", "vue-tsc", Json.str V.vueTsc)] else [])
  | "svelte" =>
      ("dependencies", "svelte", Json.str V.svelte) ::
      ("devDependencies", "@sveltejs/vite-plugin-svelte", Json.str V.vitePluginSvelte) ::
      (if o.typescript then
        [("devDependencies", "@tsconfig/svelte", Json.str V.tsconfigSvelte),
         ("devDependencies", "tslib", Json.str V.tslib),
         ("devDependencies", "svelte-check", Json.str V.svelteCheck)]
       else [])
  | "solid" =>
      ("dependencies", "solid-js", Json.str V.solid) ::
      ("devDependencies", "vite-plugin-solid", Json.str V.vitePluginSolid) ::
      (if o.typescript then [("devDependencies", "@types/node", Json.str V.typesNode)] else [])
  | _ => []

/-- The writes of `addStateManagementDependencies`. -/
def smWrites (V : Versions) (o : ProjectOptions) : List ManifestWrite :=
  match o.stateManagement with
  | some "redux-toolkit" =>
      [("dependencies", "@reduxjs/toolkit", .str V.reduxToolkit),
       ("dependencies", "react-redux", .str V.reactRedux)]
  | some "zustand" => [("dependencies", "zustand", .str V.zustand)]
  | some "jotai" => [("dependencies", "jotai", .str V.jotai)]
  | some "valtio" => [("dependencies", "valtio", .str V.valtio)]
  | some "pinia" => [("dependencies", "pinia", .str V.pinia)]
  | some "vuex" => [("dependencies", "vuex", .str "^4.1.0")]
  | _ => []

/-- The writes of `addApiClientDependencies`. -/
def apiWrites (V : Versions) (o : ProjectOptions) : List ManifestWrite :=
  match o.apiClient with
  | some "axios" => [("dependencies", "axios", .str V.axios)]
  | some "tanstack-query" =>
      [("dependencies", "@tanstack/react-query", .str V.tanstackQuery),
       ("devDependencies", "@tanstack/react-query-devtools", .str V.tanstackQueryDevtools)]
  | some "swr" => [("dependencies", "swr", .str V.swr)]
  | some "trpc" =>
      ("dependencies", "@trpc/client", Json.str "^10.45.0") ::
      ("dependencies", "@trpc/server", Json.str "^10.45.0") ::
      (if o.framework = "react" then [("dependencies", "@trpc/react-query", Json.str "^10.45.0")] else [])
  | _ => []

/-- The writes of `addI18nDependencies`. -/
def i18nWrites (V : Versions) (o : ProjectOptions) : List ManifestWrite :=
  match o.framework with
  | "react" =>
      [("dependencies", "react-i18next", .str V.reactI18next),
       ("dependencies", "i18next", .str V.i18next)]
  | "preact" =>
      [("dependencies", "react-i18next", .str V.reactI18next),
       ("dependencies", "i18next", .str V.i18next)]
  | "vue" => [("dependencies", "vue-i18n", .str V.vueI18n)]
  | "svelte" => [("dependencies", "svelte-i18n", .str "^4.0.1")]
  | "solid" => [("dependencies", "@solid-primitives/i18n", .str "^2.1.1")]
  | _ => []

/-- The writes contributed by one independent feature flag. -/
def featureWrites (V : Versions) (o : ProjectOptions) : String → List ManifestWrite
  | "pwa" => [("devDependencies", "vite-plugin-pwa", .str V.vitePluginPWA)]
  | "analyzer" =>
      [("devDependencies", "rollup-plugin-visualizer", .str V.rollupPluginVisualizer),
       ("scripts", "analyze", .str "vite build --mode analyze")]
  | "vitest" =>
      [("devDependencies", "vitest", .str V.vitest),
       ("devDependencies", "@vitest/ui", .str V.vitestUi),
       ("scripts", "test", .str "vitest"),
       ("scripts", "test:ui", .str "vitest --ui")]
  | "playwright" =>
      [("devDependencies", "@playwright/test", .str V.playwright),
       ("scripts", "test:e2e", .str "playwright test")]
  | "linting" =>
      [("devDependencies", "@biomejs/biome", .str V.biome),
       ("scripts", "lint", .str "biome lint ."),
       ("scripts", "lint:fix", .str "biome lint --write ."),
       ("scripts", "format", .str "biome format --write .")]
  | "storybook" =>
      [("devDependencies", "@storybook/" ++ getStorybookFramework o, .str V.storybook),
       ("devDependencies", "@storybook/" ++ getStorybookFramework o ++ "-vite", .str V.storybook),
       ("devDependencies", "@storybook/addon-essentials", .str V.storybook),
       ("scripts", "storybook", .str "storybook dev -p 6006"),
       ("scripts", "build-storybook", .str "storybook build")]
  | "husky" =>
      [("devDependencies", "husky", .str V.husky),
       ("devDependencies", "lint-staged", .str V.lintStaged),
       ("scripts", "prepare", .str "husky install")]
  | "i18n" => i18nWrites V o
  | _ => []

/-- The independent feature flags, in the order `addFeatureDependencies`
inspects them. -/
def featOrder : List String :=
  ["pwa", "analyzer", "vitest", "playwright", "linting", "storybook", "husky", "i18n"]

/-- Run the conditional feature blocks in order. -/
def runBlocks (V : Versions) (o : ProjectOptions) : List String → Pkg → Except String Pkg
  | [], p => .ok p
  | g :: gs, p =>
      (if o.features.contains g then applyWrites (featureWrites V o g) p else .ok p) >>=
        runBlocks V o gs

/-- The state-management step guarded by its truthiness test. -/
def smStep (V : Versions) (o : ProjectOptions) (p : Pkg) : Except String Pkg :=
  if truthyOptStr o.stateManagement then applyWrites (smWrites V o) p else .ok p

/-- The API-client step guarded by its truthiness test. -/
def apiStep (V : Versions) (o : ProjectOptions) (p : Pkg) : Except String Pkg :=
  if truthyOptStr o.apiClient then applyWrites (apiWrites V o) p else .ok p

/-- The field/key targets of a write list. -/
def writeTargets (ws : List ManifestWrite) : List (String × String) :=
  ws.map (fun w => (w.1, w.2.1))

/-- The three mapping fields. -/
def mapFields : List String := ["scripts", "dependencies", "devDependencies"]

/-- A base template manifest used for concrete runs. -/
def basePkg : Pkg :=
  [("name", .str "placeholder"),
   ("scripts", .obj [("dev", .str "vite"), ("build", .str "vite build"),
                     ("preview", .str "vite preview")]),
   ("dependencies", .obj []),
   ("devDependencies", .obj [])]

/-- The manifest produced for `optsPlain` from `basePkg`. -/
def c4pkg : Pkg :=
  [("name", .str "demo-app"),
   ("scripts", .obj [("dev", .str "vite"), ("build", .str "vite build"),
                     ("preview", .str "vite preview")]),
   ("dependencies", .obj [("react", .str "^18.2.0"), ("react-dom", .str "^18.2.0")]),
   ("devDependencies", .obj [("ts-node", .str "^10.9.1"),
                             ("@vitejs/plugin-react-swc", .str "^3.5.0"),
                             ("@types/react", .str "^18.2.0"),
                             ("@types/react-dom", .str "^18.2.0")]),
   ("version", .str "1.0.0"),
   ("type", .str "module"),
   ("description", .str "Modern react app built with Viant CLI"),
   ("license", .str "MIT")]

/-- The field-normalization prefix of `customizePackageJson` (the chain of
plain assignments before the dependency helpers run). -/
def initPkg (o : ProjectOptions) (tpl : Pkg) : Pkg :=
  let pkg := setField tpl "name" (.str o.name)
  let pkg := setField pkg "version" (jsOr (getField pkg "version") (.str "1.0.0"))
  let pkg := setField pkg "type" (.str "module")
  let pkg := setField pkg "scripts" (jsOr (getField pkg "scripts") (.obj []))
  let pkg := setField pkg "dependencies" (jsOr (getField pkg "dependencies") (.obj []))
  let pkg := setField pkg "devDependencies" (jsOr (getField pkg "devDependencies") (.obj []))
  let pkg :=
    if !truthyOpt (getField pkg "description") then
      setField pkg "description" (.str ("Modern " ++ o.framework ++ " app built with Viant CLI"))
    else pkg
  if !truthyOpt (getField pkg "license") then setField pkg "license" (.str "MIT") else pkg

/-- Every write of the list lands in one of the three mapping fields. -/
def fieldsIn (ws : List ManifestWrite) : Bool :=
  ws.all (fun w => mapFields.contains w.1)

/-- No write of the list targets the given field/key pair. -/
def avoids (ws : List ManifestWrite) (fld key : String) : Bool :=
  ws.all (fun w => !(w.1 == fld && w.2.1 == key))

/-- The constructor shape of a field value (object / array / primitive /
absent); nested writes never change it. -/
def fieldShape : Option Json → Nat
  | some (.obj _) => 0
  | some (.arr _) => 1
  | some _ => 2
  | none => 3

/-- Two manifests agree outside the mapping fields, have fields of the
same shapes, and agree on every nested entry whose field/key target is
outside the exclusion list `C`. -/
def PkgRel (C : List (String × String)) (p q : Pkg) : Prop :=
  (∀ fld, mapFields.contains fld = false → getField q fld = getField p fld) ∧
  (∀ fld, fieldShape (getField q fld) = fieldShape (getField p fld)) ∧
  (∀ fld key, C.contains (fld, key) = false → innerGet q fld key = innerGet p fld key)

/-- `optsPlain` with the independent `pwa` flag added. -/
def optsPwa : ProjectOptions :=
  { optsPlain with features := optsPlain.features ++ ["pwa"] }

/-- The manifest produced for `optsPwa` from `basePkg`. -/
def c7pkg : Pkg :=
  [("name", .str "demo-app"),
   ("scripts", .obj [("dev", .str "vite"), ("build", .str "vite build"),
                     ("preview", .str "vite preview")]),
   ("dependencies", .obj [("react", .str "^18.2.0"), ("react-dom", .str "^18.2.0")]),
   ("devDependencies", .obj [("ts-node", .str "^10.9.1"),
                             ("@vitejs/plugin-react-swc", .str "^3.5.0"),
                             ("@types/react", .str "^18.2.0"),
                             ("@types/react-dom", .str "^18.2.0"),
                             ("vite-plugin-pwa", .str "^0.17.0")]),
   ("version", .str "1.0.0"),
   ("type", .str "module"),
   ("description", .str "Modern react app built with Viant CLI"),
   ("license", .str "MIT")]

/-! ## Theorems -/

/-- Lookup after in-place update at the same key. -/
theorem getField_setField_self (l : List (String × Json)) (k : String) (v : Json) :
    getField (setField l k v) k = some v := by
  induction l with
  | nil => simp [setField, getField]
  | cons hd tl ih =>
    obtain ⟨k', v'⟩ := hd
    by_cases h : k' = k
    · simp [setField, getField, h]
    · simp [setField, getField, h, ih]

/-- Lookup after in-place update at a different key. -/
theorem getField_setField_ne (l : List (String × Json)) (k : String) (v : Json)
    (k' : String) (h : k' ≠ k) : getField (setField l k v) k' = getField l k' := by
  have hne : ¬k = k' := fun hh => h hh.symm
  induction l with
  | nil => simp [setField, getField, hne]
  | cons hd tl ih =>
    obtain ⟨k0, v0⟩ := hd
    by_cases h0 : k0 = k
    · subst h0
      simp [setField, getField, hne]
    · by_cases h1 : k0 = k'
      · simp [setField, getField, h0, h1, h]
      · simp [setField, getField, h0, h1, h, ih]

/-- Helper: the path itself never survives `rmRecursive`. -/
theorem pathExists_rmRecursive_self (fs : FS) (p : String) :
    pathExists (rmRecursive fs p) p = false := by
  have : pathExists (rmRecursive fs p) p = decide (p ∈ rmRecursive fs p) :=
    List.elem_eq_mem p (rmRecursive fs p)
  rw [this, decide_eq_false_iff_not]
  intro h
  have h2 := (List.mem_filter.mp h).2
  simp [descOrSelf] at h2

/-- C5: `categorizeError` is total over the closed taxonomy: every message
maps to exactly one of the eleven codes, the decision depends only on the
lowercased message (case-insensitive substring inspection), and `UNKNOWN`
is returned exactly when no known substring occurs. -/
theorem c5_categorize_total (msg : String) :
    categorizeError msg ∈ allErrorCodes ∧
    (∀ msg2, lowerStr msg = lowerStr msg2 → categorizeError msg = categorizeError msg2) ∧
    (categorizeError msg = .UNKNOWN ↔
      (knownErrorSubstrings.any fun pat => strContains (lowerStr msg) pat) = false) := by
  refine ⟨?_, ?_, ?_⟩
  · simp only [categorizeError]
    split_ifs <;> simp [allErrorCodes]
  · intro msg2 h
    unfold categorizeError
    rw [h]
  · simp only [categorizeError, knownErrorSubstrings, List.any_cons, List.any_nil]
    split_ifs with h1 h2 h3 h4 h5 h6 h7 h8 h9
    all_goals first
      | (refine iff_of_false (by decide) ?_
         intro hfalse
         simp only [Bool.or_eq_false_iff] at hfalse
         simp_all)
      | (refine iff_of_true rfl ?_
         simp_all [Bool.or_eq_true, not_or])

/-- Witness for `c5_categorize_total` at concrete messages, with the
case-insensitivity hypothesis discharged at "Copy failed"/"COPY FAILED". -/
theorem c5_categorize_total_witness :
    categorizeError "Copy failed" ∈ allErrorCodes ∧
    categorizeError "Copy failed" = categorizeError "COPY FAILED" ∧
    (categorizeError "mystery" = .UNKNOWN ↔
      (knownErrorSubstrings.any fun pat => strContains (lowerStr "mystery") pat) = false) :=
  ⟨(c5_categorize_total "Copy failed").1,
   (c5_categorize_total "Copy failed").2.1 "COPY FAILED" (by decide),
   (c5_categorize_total "mystery").2.2⟩

/-- C6: for every availability subset, detection returns exactly the fixed
preference order (bun, pnpm, yarn, npm) filtered to that subset, and the
single default `npm` when the subset is empty. -/
theorem c6_package_manager_order (avail : String → Bool) :
    ((∃ m ∈ PACKAGE_MANAGER_ORDER, avail m = true) →
      detectPackageManagers avail = PACKAGE_MANAGER_ORDER.filter avail) ∧
    ((∀ m ∈ PACKAGE_MANAGER_ORDER, avail m = false) →
      detectPackageManagers avail = ["npm"]) := by
  have hloop : ∀ l, detectLoop avail l = l.filter avail := by
    intro l
    induction l with
    | nil => rfl
    | cons a t ih => by_cases h : avail a <;> simp [detectLoop, List.filter_cons, h, ih]
  constructor
  · rintro ⟨m, hm, hav⟩
    have hmem : m ∈ PACKAGE_MANAGER_ORDER.filter avail := List.mem_filter.mpr ⟨hm, hav⟩
    have hne : PACKAGE_MANAGER_ORDER.filter avail ≠ [] := by
      intro hnil
      rw [hnil] at hmem
      exact absurd hmem (List.not_mem_nil m)
    have hlen : (PACKAGE_MANAGER_ORDER.filter avail).length > 0 :=
      List.length_pos.mpr hne
    unfold detectPackageManagers
    rw [hloop]
    simp [hlen]
  · intro hall
    have hnil : PACKAGE_MANAGER_ORDER.filter avail = [] := by
      rw [List.filter_eq_nil_iff]
      intro a ha
      simp [hall a ha]
    unfold detectPackageManagers
    rw [hloop, hnil]
    rfl

/-- Witness for `c6_package_manager_order`: bun+npm available yields
`["bun", "npm"]`; nothing available yields `["npm"]`. -/
theorem c6_package_manager_order_witness :
    detectPackageManagers sampleAvail = ["bun", "npm"] ∧
    detectPackageManagers (fun _ => false) = ["npm"] := by
  constructor
  · have h := (c6_package_manager_order sampleAvail).1 ⟨"bun", by decide, by decide⟩
    rw [h]
    decide
  · exact (c6_package_manager_order (fun _ => false)).2 (by intro m _; rfl)

/-- C3: `cleanupProject` is idempotent and never claims success while the
directory remains: a non-existent path yields success with `existed :=
false` and no error, leaving the filesystem untouched; an existing path is
removed recursively (after which it no longer exists) and a second call
succeeds trivially; success holds exactly when the path is gone afterwards
(for any removal behavior whose failures leave the path in place); and a
failure carries the thrown cause, or the "still exists" message when
removal returned without removing the path. -/
theorem c3_cleanup_idempotent (rm : RmBehavior) (fs : FS) (p : String) :
    (pathExists fs p = false →
      cleanupProject rm fs p =
        ({ success := true, path := p, existed := false, error := none }, fs)) ∧
    (pathExists fs p = true →
      (cleanupProject realRm fs p).1.success = true ∧
      (cleanupProject realRm fs p).1.existed = true ∧
      pathExists (cleanupProject realRm fs p).2 p = false ∧
      (cleanupProject realRm (cleanupProject realRm fs p).2 p).1 =
        { success := true, path := p, existed := false, error := none }) ∧
    ((∀ e fs', rm fs p = (some e, fs') → pathExists fs' p = true) →
      ((cleanupProject rm fs p).1.success = true ↔
        pathExists (cleanupProject rm fs p).2 p = false)) ∧
    (∀ e fs', rm fs p = (some e, fs') → pathExists fs p = true →
      (cleanupProject rm fs p).1.success = false ∧
      (cleanupProject rm fs p).1.error = some e) ∧
    (∀ fs', rm fs p = (none, fs') → pathExists fs p = true →
      pathExists fs' p = true →
      (cleanupProject rm fs p).1.success = false ∧
      (cleanupProject rm fs p).1.error =
        some "Directory still exists after cleanup attempt") := by
  refine ⟨?_, ?_, ?_, ?_, ?_⟩
  · intro h
    simp [cleanupProject, h]
  · intro h
    have hgone := pathExists_rmRecursive_self fs p
    refine ⟨?_, ?_, ?_, ?_⟩ <;>
      simp [cleanupProject, h, realRm, hgone]
  · intro hpres
    by_cases h : pathExists fs p
    · cases hrm : rm fs p with
      | mk oerr fs' =>
        cases oerr with
        | none =>
            by_cases hstill : pathExists fs' p <;>
              simp [cleanupProject, h, hrm, hstill]
        | some e =>
            have := hpres e fs' hrm
            simp [cleanupProject, h, hrm, this]
    · simp only [Bool.not_eq_true] at h
      simp [cleanupProject, h]
  · intro e fs' hrm h
    simp [cleanupProject, h, hrm]
  · intro fs' hrm h hstill
    simp [cleanupProject, h, hrm, hstill]

/-- Witness for `c3_cleanup_idempotent`: concrete filesystems exercising
the missing-path branch and the remove-then-recheck branch with its
idempotent second call. -/
theorem c3_cleanup_idempotent_witness :
    cleanupProject realRm ["keep"] "demo-app" =
      ({ success := true, path := "demo-app", existed := false, error := none }, ["keep"]) ∧
    (cleanupProject realRm ["demo-app", "demo-app/x", "keep"] "demo-app").1.success = true ∧
    pathExists (cleanupProject realRm ["demo-app", "demo-app/x", "keep"] "demo-app").2 "demo-app" = false ∧
    (cleanupProject realRm
      (cleanupProject realRm ["demo-app", "demo-app/x", "keep"] "demo-app").2 "demo-app").1 =
      { success := true, path := "demo-app", existed := false, error := none } :=
  ⟨(c3_cleanup_idempotent realRm ["keep"] "demo-app").1 (by decide),
   ((c3_cleanup_idempotent realRm ["demo-app", "demo-app/x", "keep"] "demo-app").2.1 (by decide)).1,
   ((c3_cleanup_idempotent realRm ["demo-app", "demo-app/x", "keep"] "demo-app").2.1 (by decide)).2.2.1,
   ((c3_cleanup_idempotent realRm ["demo-app", "demo-app/x", "keep"] "demo-app").2.1 (by decide)).2.2.2⟩

/-- C10: the PWA vite-config rewrite leaves a config that already mentions
`vite-plugin-pwa` byte-for-byte unchanged, so applying it twice equals
applying it once. -/
theorem c10_pwa_rewrite_idempotent (name content : String)
    (h : strContains content "vite-plugin-pwa" = true) :
    updateViteConfigForPWA name content = content ∧
    updateViteConfigForPWA name (updateViteConfigForPWA name content) =
      updateViteConfigForPWA name content := by
  have h1 : updateViteConfigForPWA name content = content := by
    unfold updateViteConfigForPWA
    simp [h]
  exact ⟨h1, by rw [h1, h1]⟩

/-- Witness for `c10_pwa_rewrite_idempotent` on a concrete vite config
already containing the plugin. -/
theorem c10_pwa_rewrite_idempotent_witness :
    updateViteConfigForPWA "demo-app"
      "import \x7b VitePWA \x7d from 'vite-plugin-pwa';\nexport default \x7b\x7d;\n" =
      "import \x7b VitePWA \x7d from 'vite-plugin-pwa';\nexport default \x7b\x7d;\n" :=
  (c10_pwa_rewrite_idempotent "demo-app"
    "import \x7b VitePWA \x7d from 'vite-plugin-pwa';\nexport default \x7b\x7d;\n"
    (by decide)).1

/-- C8: every typed-language Selection gets a type-check document with
strict mode enabled and the `@/*` → `./src/*` alias; selecting `strict-ts`
additionally sets exactly `noUncheckedIndexedAccess` and
`exactOptionalPropertyTypes` to `true`, leaving every other
`compilerOptions` entry — the base `strict` flag included — and every other
top-level field unchanged (the frame parts hold for arbitrary
documents). -/
theorem c8_tsconfig_strict (o : ProjectOptions) (h : o.typescript = true) :
    innerGet (generatedTsconfig o) "compilerOptions" "strict" = some (.bool true) ∧
    innerGet (generatedTsconfig o) "compilerOptions" "baseUrl" = some (.str ".") ∧
    innerGet (generatedTsconfig o) "compilerOptions" "paths" =
      some (.obj [("@/*", .arr [.str "./src/*"])]) ∧
    (o.features.contains "strict-ts" = true →
      innerGet (generatedTsconfig o) "compilerOptions" "noUncheckedIndexedAccess" =
        some (.bool true) ∧
      innerGet (generatedTsconfig o) "compilerOptions" "exactOptionalPropertyTypes" =
        some (.bool true)) ∧
    (∀ t m k, getField t "compilerOptions" = some (.obj m) →
      k ≠ "noUncheckedIndexedAccess" → k ≠ "exactOptionalPropertyTypes" →
      innerGet (addStrictTsconfig t) "compilerOptions" k = getField m k) ∧
    (∀ t k, k ≠ "compilerOptions" →
      getField (addStrictTsconfig t) k = getField t k) := by
  by_cases hst : o.features.contains "strict-ts"
  all_goals refine ⟨?_, ?_, ?_, ?_, ?_, ?_⟩
  · simp only [generatedTsconfig, hst, h, Bool.and_self, if_true]; rfl
  · simp only [generatedTsconfig, hst, h, Bool.and_self, if_true]; rfl
  · simp only [generatedTsconfig, hst, h, Bool.and_self, if_true]; rfl
  · intro _
    constructor <;> (simp only [generatedTsconfig, hst, h, Bool.and_self, if_true]; rfl)
  · intro t m k hm hk1 hk2
    unfold addStrictTsconfig
    rw [hm]
    unfold innerGet
    rw [getField_setField_self]
    dsimp only
    rw [getField_setField_ne _ _ _ _ hk2, getField_setField_ne _ _ _ _ hk1]
  · intro t k hk
    unfold addStrictTsconfig
    cases hco : getField t "compilerOptions" with
    | none => simp [getField_setField_ne _ _ _ _ hk]
    | some v =>
      cases v with
      | obj m => simp [getField_setField_ne _ _ _ _ hk]
      | null => simp [truthy, getField_setField_ne _ _ _ _ hk]
      | bool b => cases b <;> simp [truthy, getField_setField_ne _ _ _ _ hk]
      | num n => by_cases hn : n = 0 <;> simp [truthy, hn, getField_setField_ne _ _ _ _ hk]
      | str s => by_cases hs : s.isEmpty <;> simp [truthy, hs, getField_setField_ne _ _ _ _ hk]
      | arr xs => simp [truthy, getField_setField_ne _ _ _ _ hk]
  · simp only [generatedTsconfig, hst, Bool.false_and, if_false]; rfl
  · simp only [generatedTsconfig, hst, Bool.false_and, if_false]; rfl
  · simp only [generatedTsconfig, hst, Bool.false_and, if_false]; rfl
  · intro hc
    exact absurd hc hst
  · intro t m k hm hk1 hk2
    unfold addStrictTsconfig
    rw [hm]
    unfold innerGet
    rw [getField_setField_self]
    dsimp only
    rw [getField_setField_ne _ _ _ _ hk2, getField_setField_ne _ _ _ _ hk1]
  · intro t k hk
    unfold addStrictTsconfig
    cases hco : getField t "compilerOptions" with
    | none => simp [getField_setField_ne _ _ _ _ hk]
    | some v =>
      cases v with
      | obj m => simp [getField_setField_ne _ _ _ _ hk]
      | null => simp [truthy, getField_setField_ne _ _ _ _ hk]
      | bool b => cases b <;> simp [truthy, getField_setField_ne _ _ _ _ hk]
      | num n => by_cases hn : n = 0 <;> simp [truthy, hn, getField_setField_ne _ _ _ _ hk]
      | str s => by_cases hs : s.isEmpty <;> simp [truthy, hs, getField_setField_ne _ _ _ _ hk]
      | arr xs => simp [truthy, getField_setField_ne _ _ _ _ hk]

/-- Witness for `c8_tsconfig_strict` at a concrete strict-ts Selection. -/
theorem c8_tsconfig_strict_witness :
    innerGet (generatedTsconfig optsStrict) "compilerOptions" "strict" = some (.bool true) ∧
    innerGet (generatedTsconfig optsStrict) "compilerOptions" "noUncheckedIndexedAccess" =
      some (.bool true) ∧
    innerGet (generatedTsconfig optsStrict) "compilerOptions" "exactOptionalPropertyTypes" =
      some (.bool true) :=
  ⟨(c8_tsconfig_strict optsStrict rfl).1,
   ((c8_tsconfig_strict optsStrict rfl).2.2.2.1 (by decide)).1,
   ((c8_tsconfig_strict optsStrict rfl).2.2.2.1 (by decide)).2⟩

/-- Appending different suffixes to the same string yields different
strings. -/
theorem append_ne_right (s : String) {a b : String} (h : a ≠ b) : s ++ a ≠ s ++ b := by
  intro hc
  apply h
  apply String.ext
  have hd : s.data ++ a.data = s.data ++ b.data := congrArg String.data hc
  exact List.append_cancel_left hd

/-- C9: when the copied template has no `package.json`, manifest
customization is a silent no-op — it reports success with nothing written,
and a generation run whose other steps succeed completes without ever
writing a `package.json`. -/
theorem c9_missing_manifest_noop (V : Versions) (o : ProjectOptions) (env : GenEnv)
    (h1 : pathExists env.fs o.name = false) (h2 : env.templateExists = true)
    (h3 : env.copyOk = true) (h4 : env.templatePkg = none)
    (h5 : env.installExit = 0) (h6 : env.devOk = true) :
    customizePackageJson V o none = .ok none ∧
    (generate V o env).1 = .completed ∧
    GenEvent.wroteEvt (o.name ++ "/package.json") ∉ (generate V o env).2.2 := by
  refine ⟨rfl, ?_, ?_⟩
  · simp [generate, h1, h2, h3, h4, h5, h6, customizePackageJson]
  · have hg : (generate V o env).2.2 =
        [GenEvent.mkdirEvt o.name, GenEvent.wroteEvt (o.name ++ "/src/main"),
         GenEvent.wroteEvt (o.name ++ "/index.html"),
         GenEvent.wroteEvt (o.name ++ "/.gitignore")] := by
      simp [generate, h1, h2, h3, h4, h5, h6, customizePackageJson]
    rw [hg]
    intro hmem
    simp only [List.mem_cons, List.not_mem_nil, or_false] at hmem
    rcases hmem with h | h | h | h
    · exact GenEvent.noConfusion h
    · exact append_ne_right o.name (by decide) (GenEvent.wroteEvt.inj h)
    · exact append_ne_right o.name (by decide) (GenEvent.wroteEvt.inj h)
    · exact append_ne_right o.name (by decide) (GenEvent.wroteEvt.inj h)

/-- Witness for `c9_missing_manifest_noop` at a concrete run. -/
theorem c9_missing_manifest_noop_witness :
    customizePackageJson sampleVersions optsPlain none = .ok none ∧
    (generate sampleVersions optsPlain envGitFails).1 = .completed ∧
    GenEvent.wroteEvt (optsPlain.name ++ "/package.json") ∉
      (generate sampleVersions optsPlain envGitFails).2.2 :=
  c9_missing_manifest_noop sampleVersions optsPlain envGitFails rfl rfl rfl rfl rfl rfl

/-- C1 (divergence exhibit): with the target directory already existing,
the run does fail with `DIR_EXISTS` before any mkdir/write event — but the
catch block still invokes cleanup, which deletes the pre-existing directory
and its contents, so the filesystem is NOT left unchanged. -/
theorem c1_preexisting_dir_deleted :
    generate sampleVersions optsPlain envPreexisting =
      (.failed .DIR_EXISTS, [], [.cleanupEvt]) ∧
    pathExists envPreexisting.fs "demo-app" = true ∧
    pathExists envPreexisting.fs "demo-app/precious.txt" = true := by
  refine ⟨?_, rfl, rfl⟩
  rfl

/-- C2 (divergence exhibit): a git-initialization failure is indeed
non-fatal — the run completes and the project directory remains — but a
dependency-installation failure rejects into the catch block, flips the run
to failed (`INSTALL_FAILED`) and rolls the generated directory back, so the
directory does NOT still exist afterwards. -/
theorem c2_git_nonfatal_install_fatal :
    (generate sampleVersions optsInstall envGitFails).1 = .completed ∧
    pathExists (generate sampleVersions optsInstall envGitFails).2.1 "demo-app" = true ∧
    (generate sampleVersions optsInstall envInstallFails).1 = .failed .INSTALL_FAILED ∧
    pathExists (generate sampleVersions optsInstall envInstallFails).2.1 "demo-app" = false ∧
    (generate sampleVersions optsInstall envInstallFails).2.1 = [] := by
  refine ⟨rfl, rfl, ?_, ?_, ?_⟩ <;> rfl

/-- Skipping whitespace leaves a non-whitespace head alone. -/
theorem skipWs_cons_not (c : Char) (cs : List Char) (h : isWsChar c = false) :
    skipWs (c :: cs) = c :: cs := by
  simp [skipWs, List.dropWhile_cons, h]

/-- `Nat.digitChar` of a digit value is a digit character. -/
theorem digitChar_isDigit {n : Nat} (h : n < 10) : (Nat.digitChar n).isDigit = true := by
  interval_cases n <;> decide

/-- Numeric value of `Nat.digitChar`. -/
theorem digitChar_toNat {n : Nat} (h : n < 10) : (Nat.digitChar n).toNat = 48 + n := by
  interval_cases n <;> decide

/-- `natDigits` is nonempty and starts with a digit character. -/
theorem natDigits_head (n : Nat) : ∃ c cs, natDigits n = c :: cs ∧ c.isDigit = true := by
  induction n using Nat.strong_induction_on with
  | _ n ih =>
    by_cases h : n < 10
    · refine ⟨Nat.digitChar n, [], ?_, digitChar_isDigit h⟩
      unfold natDigits
      simp [h]
    · have hlt : n / 10 < n := Nat.div_lt_self (by omega) (by omega)
      obtain ⟨c, cs, hc, hd⟩ := ih (n / 10) hlt
      refine ⟨c, cs ++ [Nat.digitChar (n % 10)], ?_, hd⟩
      unfold natDigits
      simp [h, hc]

/-- Every character of `natDigits` is a digit. -/
theorem natDigits_all_digit (n : Nat) : ∀ c ∈ natDigits n, c.isDigit = true := by
  induction n using Nat.strong_induction_on with
  | _ n ih =>
    intro c hc
    unfold natDigits at hc
    by_cases h : n < 10
    · simp [h] at hc
      subst hc
      exact digitChar_isDigit h
    · simp only [h, if_false, List.mem_append, List.mem_singleton] at hc
      rcases hc with hc | hc
      · have hlt : n / 10 < n := Nat.div_lt_self (by omega) (by omega)
        exact ih (n / 10) hlt c hc
      · subst hc
        exact digitChar_isDigit (Nat.mod_lt n (by omega))

/-- Value of a digit run extended by one digit. -/
theorem digitsVal_append (l : List Char) (c : Char) :
    digitsVal (l ++ [c]) = digitsVal l * 10 + (c.toNat - 48) := by
  simp [digitsVal, List.foldl_append]

/-- Parsing the decimal digits of `n` recovers `n`. -/
theorem digitsVal_natDigits (n : Nat) : digitsVal (natDigits n) = n := by
  induction n using Nat.strong_induction_on with
  | _ n ih =>
    unfold natDigits
    by_cases h : n < 10
    · simp [h, digitsVal, digitChar_toNat h]
    · have hlt : n / 10 < n := Nat.div_lt_self (by omega) (by omega)
      simp only [h, if_false]
      rw [digitsVal_append, ih _ hlt, digitChar_toNat (Nat.mod_lt n (by omega))]
      omega

/-- A digit character is none of the parser's structural characters. -/
theorem digit_not_special {c : Char} (h : c.isDigit = true) :
    isWsChar c = false ∧ c ≠ '"' ∧ c ≠ 'n' ∧ c ≠ 't' ∧ c ≠ 'f' ∧ c ≠ '[' ∧ c ≠ '{' ∧
    c ≠ ']' ∧ c ≠ '}' ∧ c ≠ ',' ∧ c ≠ ':' := by
  have hne : ∀ d : Char, d.isDigit = false → c ≠ d := by
    intro d hd he
    rw [he, hd] at h
    exact Bool.false_ne_true h
  have h1 := hne ' ' (by decide)
  have h2 := hne '\n' (by decide)
  have h3 := hne '\t' (by decide)
  have h4 := hne '\r' (by decide)
  refine ⟨?_, hne _ (by decide), hne _ (by decide), hne _ (by decide), hne _ (by decide),
    hne _ (by decide), hne _ (by decide), hne _ (by decide), hne _ (by decide),
    hne _ (by decide), hne _ (by decide)⟩
  simp [isWsChar, h1, h2, h3, h4]

/-- An escape-free string has no quote characters. -/
theorem safeStr_no_quote {s : String} (h : safeStr s = true) : ∀ c ∈ s.toList, c ≠ '"' := by
  intro c hc he
  have := List.all_eq_true.mp h c hc
  subst he
  simp at this

/-- Scanning up to the closing quote of an escape-free string. -/
theorem takeWhile_quote (s rest : List Char) (hs : ∀ c ∈ s, c ≠ '"') :
    (s ++ '"' :: rest).takeWhile (fun d => !(d = '"')) = s ∧
    (s ++ '"' :: rest).dropWhile (fun d => !(d = '"')) = '"' :: rest := by
  induction s with
  | nil => simp
  | cons c t ih =>
    have hc : c ≠ '"' := hs c (by simp)
    have iht := ih (fun d hd => hs d (by simp [hd]))
    simp [List.takeWhile_cons, List.dropWhile_cons, hc, iht.1, iht.2]

/-- Scanning a digit run followed by a non-digit remainder. -/
theorem takeWhile_digits (ds rest : List Char) (hd : ∀ c ∈ ds, c.isDigit = true)
    (hrest : notDigitStart rest = true) :
    (ds ++ rest).takeWhile Char.isDigit = ds ∧
    (ds ++ rest).dropWhile Char.isDigit = rest := by
  induction ds with
  | nil =>
    cases rest with
    | nil => simp
    | cons c t =>
      simp only [notDigitStart, Bool.not_eq_true'] at hrest
      simp [List.takeWhile_cons, List.dropWhile_cons, hrest]
  | cons c t ih =>
    have hc := hd c (by simp)
    have iht := ih (fun d hdm => hd d (by simp [hdm]))
    simp [List.takeWhile_cons, List.dropWhile_cons, hc, iht.1, iht.2]

/-- A head-character check for the serializer: known head, not
whitespace, not a closing delimiter. -/
theorem head_not_special (c : Char) (cs : List Char)
    (h : (isWsChar c || c == ']' || c == '}') = false) :
    ∃ c0 cs0, (c :: cs : List Char) = c0 :: cs0 ∧
      isWsChar c0 = false ∧ c0 ≠ ']' ∧ c0 ≠ '}' := by
  simp only [Bool.or_eq_false_iff, beq_eq_false_iff_ne] at h
  exact ⟨c, cs, rfl, h.1.1, h.1.2, h.2⟩

/-- Every serialization starts with a non-whitespace character that is
neither a closing bracket nor a closing brace. -/
theorem sJson_head (v : Json) :
    ∃ c cs, sJson v = c :: cs ∧ isWsChar c = false ∧ c ≠ ']' ∧ c ≠ '}' := by
  cases v with
  | null => exact head_not_special 'n' _ (by decide)
  | bool b =>
    cases b with
    | true => exact head_not_special 't' _ (by decide)
    | false => exact head_not_special 'f' _ (by decide)
  | num n =>
    obtain ⟨c, cs, hc, hd⟩ := natDigits_head n
    have hf := digit_not_special hd
    exact ⟨c, cs, by simp [sJson, hc], hf.1, hf.2.2.2.2.2.2.2.1, hf.2.2.2.2.2.2.2.2.1⟩
  | str s => exact head_not_special '"' _ (by decide)
  | arr xs =>
    cases xs with
    | nil => exact head_not_special '[' _ (by decide)
    | cons x r => exact head_not_special '[' _ (by decide)
  | obj kvs =>
    cases kvs with
    | nil => exact head_not_special '{' _ (by decide)
    | cons kv r =>
      obtain ⟨k, v⟩ := kv
      exact head_not_special '{' _ (by decide)

/-- Soundness of the parser on serialized output: with enough fuel, parsing
the serialization of a safe value (followed by any remainder not starting
with a digit) yields the value and the remainder; likewise for the item and
member sub-parsers. -/
theorem parse_aux : ∀ fuel : Nat,
    (∀ v rest, safeJson v = true → jsize v ≤ fuel → notDigitStart rest = true →
      pVal fuel (sJson v ++ rest) = some (v, rest)) ∧
    (∀ x r rest, safeJson x = true → safeArr r = true →
      asize (x :: r) ≤ fuel → notDigitStart rest = true →
      pArrItems fuel (sJson x ++ (sTail r ++ rest)) = some (x :: r, rest)) ∧
    (∀ k v r rest, safeStr k = true → safeJson v = true → safeFields r = true →
      fsize ((k, v) :: r) ≤ fuel → notDigitStart rest = true →
      pObjItems fuel ('"' :: (k.toList ++ '"' :: ':' :: (sJson v ++ (fTail r ++ rest)))) =
        some ((k, v) :: r, rest)) := by
  intro fuel
  induction fuel using Nat.strong_induction_on with
  | _ fuel ih =>
  refine ⟨?_, ?_, ?_⟩
  · intro v rest hsafe hsz hrest
    have hpos : 1 ≤ fuel := le_trans (by cases v <;> simp [jsize]) hsz
    obtain ⟨m, rfl⟩ : ∃ m, fuel = m + 1 := ⟨fuel - 1, by omega⟩
    cases v with
    | null =>
      show pVal (m + 1) (['n', 'u', 'l', 'l'] ++ rest) = some (.null, rest)
      simp only [List.cons_append, List.nil_append, pVal]
      rw [skipWs_cons_not _ _ (by decide)]
      simp [stripLit]
    | bool b =>
      cases b with
      | true =>
        show pVal (m + 1) (['t', 'r', 'u', 'e'] ++ rest) = some (.bool true, rest)
        simp only [List.cons_append, List.nil_append, pVal]
        rw [skipWs_cons_not _ _ (by decide)]
        simp [stripLit]
      | false =>
        show pVal (m + 1) (['f', 'a', 'l', 's', 'e'] ++ rest) = some (.bool false, rest)
        simp only [List.cons_append, List.nil_append, pVal]
        rw [skipWs_cons_not _ _ (by decide)]
        simp [stripLit]
    | num n =>
      obtain ⟨c, cs, hc, hd⟩ := natDigits_head n
      have hf := digit_not_special hd
      have hshape : sJson (.num n) ++ rest = c :: (cs ++ rest) := by simp [sJson, hc]
      have hlist : c :: (cs ++ rest) = natDigits n ++ rest := by simp [hc]
      have htw := takeWhile_digits (natDigits n) rest (natDigits_all_digit n) hrest
      rw [hshape]
      simp only [pVal]
      rw [skipWs_cons_not _ _ hf.1]
      simp [hf.2.1, hf.2.2.1, hf.2.2.2.1, hf.2.2.2.2.1, hf.2.2.2.2.2.1, hf.2.2.2.2.2.2.1,
        hd, hlist, htw.1, htw.2, digitsVal_natDigits]
    | str s =>
      have hq := safeStr_no_quote (show safeStr s = true by simpa [safeJson] using hsafe)
      have hshape : sJson (.str s) ++ rest = '"' :: (s.toList ++ '"' :: rest) := by
        simp [sJson]
      have htw := takeWhile_quote s.toList rest hq
      simp only [String.toList] at htw
      rw [hshape]
      simp only [pVal]
      rw [skipWs_cons_not _ _ (by decide)]
      simp [htw.1, htw.2]
    | arr xs =>
      cases xs with
      | nil =>
        show pVal (m + 1) (['[', ']'] ++ rest) = some (.arr [], rest)
        simp only [List.cons_append, List.nil_append, pVal]
        rw [skipWs_cons_not _ _ (by decide)]
        have h2 : skipWs (']' :: rest) = ']' :: rest := skipWs_cons_not _ _ (by decide)
        simp [h2]
      | cons x r =>
        obtain ⟨c2, cs2, hc2, hw2, hne2, _⟩ := sJson_head x
        have hsx : safeJson x = true ∧ safeArr r = true := by
          simpa [safeJson, safeArr, Bool.and_eq_true] using hsafe
        have hshape : sJson (.arr (x :: r)) ++ rest =
            '[' :: (c2 :: (cs2 ++ (sTail r ++ rest))) := by
          simp [sJson, hc2, List.append_assoc]
        have hA : skipWs (c2 :: (cs2 ++ (sTail r ++ rest))) =
            c2 :: (cs2 ++ (sTail r ++ rest)) := skipWs_cons_not _ _ hw2
        have hsz' : asize (x :: r) ≤ m := by
          have h1 : jsize (.arr (x :: r)) = 1 + asize (x :: r) := rfl
          omega
        have hQ := (ih m (by omega)).2.1 x r rest hsx.1 hsx.2 hsz' hrest
        have hQ2 : pArrItems m (c2 :: (cs2 ++ (sTail r ++ rest))) = some (x :: r, rest) := by
          rw [← hQ, hc2]
          simp [List.append_assoc]
        rw [hshape]
        simp only [pVal]
        simp [hA, hne2, hQ2, skipWs_cons_not '[' _ (by decide)]
    | obj kvs =>
      cases kvs with
      | nil =>
        show pVal (m + 1) (['{', '}'] ++ rest) = some (.obj [], rest)
        simp only [List.cons_append, List.nil_append, pVal]
        rw [skipWs_cons_not _ _ (by decide)]
        have h2 : skipWs ('}' :: rest) = '}' :: rest := skipWs_cons_not _ _ (by decide)
        simp [h2]
      | cons kv r =>
        obtain ⟨k, v⟩ := kv
        have hsk : (safeStr k && safeJson v && safeFields r) = true := by
          simpa [safeJson, safeFields] using hsafe
        have hsk3 : safeStr k = true ∧ safeJson v = true ∧ safeFields r = true := by
          simp only [Bool.and_eq_true] at hsk
          exact ⟨hsk.1.1, hsk.1.2, hsk.2⟩
        have hshape : sJson (.obj ((k, v) :: r)) ++ rest =
            '{' :: ('"' :: (k.toList ++ '"' :: ':' :: (sJson v ++ (fTail r ++ rest)))) := by
          simp [sJson, List.append_assoc]
        have hA : skipWs ('"' :: (k.toList ++ '"' :: ':' :: (sJson v ++ (fTail r ++ rest)))) =
            '"' :: (k.toList ++ '"' :: ':' :: (sJson v ++ (fTail r ++ rest))) :=
          skipWs_cons_not _ _ (by decide)
        have hsz' : fsize ((k, v) :: r) ≤ m := by
          have h1 : jsize (.obj ((k, v) :: r)) = 1 + fsize ((k, v) :: r) := rfl
          omega
        have hR := (ih m (by omega)).2.2 k v r rest hsk3.1 hsk3.2.1 hsk3.2.2 hsz' hrest
        simp only [String.toList] at hA hR
        rw [hshape]
        simp only [pVal]
        simp [hA, hR, skipWs_cons_not '{' _ (by decide)]
  · intro x r rest hsx hsr hsz hrest
    have hsz1 : asize (x :: r) = 1 + max (jsize x) (asize r) := rfl
    have hpos : 1 ≤ fuel := by omega
    obtain ⟨m, rfl⟩ : ∃ m, fuel = m + 1 := ⟨fuel - 1, by omega⟩
    have hlex := le_max_left (jsize x) (asize r)
    have hler := le_max_right (jsize x) (asize r)
    have hm : jsize x ≤ m := by omega
    have hnd : notDigitStart (sTail r ++ rest) = true := by
      cases r with
      | nil => simp [sTail, notDigitStart]
      | cons y r2 => simp [sTail, notDigitStart]
    have hP := (ih m (by omega)).1 x (sTail r ++ rest) hsx hm hnd
    simp only [pArrItems]
    rw [hP]
    cases r with
    | nil =>
      have hs : sTail ([] : List Json) ++ rest = ']' :: rest := by simp [sTail]
      have h2 : skipWs (']' :: rest) = ']' :: rest := skipWs_cons_not _ _ (by decide)
      simp [hs, h2]
    | cons y r2 =>
      have hsy : safeJson y = true ∧ safeArr r2 = true := by
        simpa [safeArr, Bool.and_eq_true] using hsr
      have hs : sTail (y :: r2) ++ rest = ',' :: (sJson y ++ (sTail r2 ++ rest)) := by
        simp [sTail, List.append_assoc]
      have h2 : skipWs (',' :: (sJson y ++ (sTail r2 ++ rest))) =
          ',' :: (sJson y ++ (sTail r2 ++ rest)) := skipWs_cons_not _ _ (by decide)
      have hsz2 : asize (y :: r2) ≤ m := by omega
      have hQ := (ih m (by omega)).2.1 y r2 rest hsy.1 hsy.2 hsz2 hrest
      simp [hs, h2, hQ]
  · intro k v r rest hsk hsv hsr hsz hrest
    have hsz1 : fsize ((k, v) :: r) = 1 + max (jsize v) (fsize r) := rfl
    have hpos : 1 ≤ fuel := by omega
    obtain ⟨m, rfl⟩ : ∃ m, fuel = m + 1 := ⟨fuel - 1, by omega⟩
    have hlev := le_max_left (jsize v) (fsize r)
    have hler := le_max_right (jsize v) (fsize r)
    have hm : jsize v ≤ m := by omega
    have htw := takeWhile_quote k.toList (':' :: (sJson v ++ (fTail r ++ rest)))
      (safeStr_no_quote hsk)
    simp only [String.toList] at htw
    have hA : skipWs ('"' :: (k.toList ++ '"' :: ':' :: (sJson v ++ (fTail r ++ rest)))) =
        '"' :: (k.toList ++ '"' :: ':' :: (sJson v ++ (fTail r ++ rest))) :=
      skipWs_cons_not _ _ (by decide)
    have hB : skipWs (':' :: (sJson v ++ (fTail r ++ rest))) =
        ':' :: (sJson v ++ (fTail r ++ rest)) := skipWs_cons_not _ _ (by decide)
    have hnd : notDigitStart (fTail r ++ rest) = true := by
      cases r with
      | nil => simp [fTail, notDigitStart]
      | cons kv2 r2 =>
        obtain ⟨k2, v2⟩ := kv2
        simp [fTail, notDigitStart]
    have hP := (ih m (by omega)).1 v (fTail r ++ rest) hsv hm hnd
    simp only [pObjItems]
    rw [hA]
    cases r with
    | nil =>
      have hs : fTail ([] : List (String × Json)) ++ rest = '}' :: rest := by simp [fTail]
      have h2 : skipWs ('}' :: rest) = '}' :: rest := skipWs_cons_not _ _ (by decide)
      rw [hs] at htw hB hP
      simp [hs, htw.1, htw.2, hB, hP, h2]
    | cons kv2 r2 =>
      obtain ⟨k2, v2⟩ := kv2
      have hsk2 : (safeStr k2 && safeJson v2 && safeFields r2) = true := by
        simpa [safeFields] using hsr
      have hsk3 : safeStr k2 = true ∧ safeJson v2 = true ∧ safeFields r2 = true := by
        simp only [Bool.and_eq_true] at hsk2
        exact ⟨hsk2.1.1, hsk2.1.2, hsk2.2⟩
      have hs : fTail ((k2, v2) :: r2) ++ rest =
          ',' :: ('"' :: (k2.toList ++ '"' :: ':' :: (sJson v2 ++ (fTail r2 ++ rest)))) := by
        simp [fTail, List.append_assoc]
      have h2 : skipWs (',' :: ('"' :: (k2.toList ++ '"' :: ':' :: (sJson v2 ++ (fTail r2 ++ rest))))) =
          ',' :: ('"' :: (k2.toList ++ '"' :: ':' :: (sJson v2 ++ (fTail r2 ++ rest)))) :=
        skipWs_cons_not _ _ (by decide)
      have hsz2 : fsize ((k2, v2) :: r2) ≤ m := by omega
      have hR := (ih m (by omega)).2.2 k2 v2 r2 rest hsk3.1 hsk3.2.1 hsk3.2.2 hsz2 hrest
      simp only [String.toList] at hs h2 hR
      rw [hs] at htw hB hP
      simp [hs, htw.1, htw.2, hB, hP, h2, hR]

/-- The parse fuel needed for a value is at most the length of its
serialization. -/
theorem sizes_bound : ∀ n : Nat,
    (∀ v : Json, sizeOf v ≤ n → jsize v ≤ (sJson v).length) ∧
    (∀ (x : Json) (r : List Json), 1 + sizeOf x + sizeOf r ≤ n →
      asize (x :: r) ≤ (sJson x).length + (sTail r).length) ∧
    (∀ (k : String) (v : Json) (r : List (String × Json)), 1 + sizeOf v + sizeOf r ≤ n →
      fsize ((k, v) :: r) ≤ (sJson v).length + (fTail r).length) := by
  intro n
  induction n using Nat.strong_induction_on with
  | _ n ih =>
  refine ⟨?_, ?_, ?_⟩
  · intro v hv
    cases v with
    | null => simp [jsize, sJson]
    | bool b => cases b <;> simp [jsize, sJson]
    | num k =>
      obtain ⟨c, cs, hc, -⟩ := natDigits_head k
      simp [jsize, sJson, hc]
    | str s => simp [jsize, sJson]
    | arr xs =>
      cases xs with
      | nil => simp [jsize, asize, sJson]
      | cons x r =>
        have hsize : sizeOf (Json.arr (x :: r)) = 1 + (1 + sizeOf x + sizeOf r) := by simp
        have hpos : 1 ≤ n := by omega
        have h1 := (ih (n - 1) (by omega)).2.1 x r (by omega)
        have e1 : jsize (.arr (x :: r)) = 1 + asize (x :: r) := rfl
        have e2 : (sJson (.arr (x :: r))).length =
            1 + ((sJson x).length + (sTail r).length) := by
          simp [sJson]
          omega
        omega
    | obj kvs =>
      cases kvs with
      | nil => simp [jsize, fsize, sJson]
      | cons kv r =>
        obtain ⟨k, v⟩ := kv
        have hsize : sizeOf (Json.obj ((k, v) :: r)) =
            1 + (1 + (1 + sizeOf k + sizeOf v) + sizeOf r) := by simp
        have hkv : 1 ≤ sizeOf k := by
          cases k
          simp
        have h1 := (ih (n - 1) (by omega)).2.2 k v r (by omega)
        have e1 : jsize (.obj ((k, v) :: r)) = 1 + fsize ((k, v) :: r) := rfl
        have e2 : (sJson (.obj ((k, v) :: r))).length =
            1 + (1 + (k.toList.length + (1 + (1 + ((sJson v).length + (fTail r).length))))) := by
          simp [sJson]
          omega
        have e3 : k.toList.length = k.length := by simp
        omega
  · intro x r hsz
    have hx := (ih (n - 1) (by omega)).1 x (by omega)
    cases r with
    | nil =>
      have e1 : asize (x :: []) = 1 + max (jsize x) 0 := rfl
      have e2 : (sTail ([] : List Json)).length = 1 := rfl
      have e3 : max (jsize x) 0 = jsize x := Nat.max_zero _
      omega
    | cons y r2 =>
      have hys : sizeOf (y :: r2) = 1 + sizeOf y + sizeOf r2 := by simp
      have hyr := (ih (n - 1) (by omega)).2.1 y r2 (by omega)
      have e1 : asize (x :: y :: r2) = 1 + max (jsize x) (asize (y :: r2)) := rfl
      have e2 : (sTail (y :: r2)).length = 1 + ((sJson y).length + (sTail r2).length) := by
        simp [sTail]
        omega
      have hmax : max (jsize x) (asize (y :: r2)) ≤
          (sJson x).length + ((sJson y).length + (sTail r2).length) :=
        Nat.max_le.mpr ⟨by omega, by omega⟩
      omega
  · intro k v r hsz
    have hv := (ih (n - 1) (by omega)).1 v (by omega)
    cases r with
    | nil =>
      have e1 : fsize ((k, v) :: []) = 1 + max (jsize v) 0 := rfl
      have e2 : (fTail ([] : List (String × Json))).length = 1 := rfl
      have e3 : max (jsize v) 0 = jsize v := Nat.max_zero _
      omega
    | cons kv2 r2 =>
      obtain ⟨k2, v2⟩ := kv2
      have hys : sizeOf ((k2, v2) :: r2) = 1 + (1 + sizeOf k2 + sizeOf v2) + sizeOf r2 := by simp
      have hyr := (ih (n - 1) (by omega)).2.2 k2 v2 r2 (by omega)
      have e1 : fsize ((k, v) :: (k2, v2) :: r2) =
          1 + max (jsize v) (fsize ((k2, v2) :: r2)) := rfl
      have e2 : (fTail ((k2, v2) :: r2)).length =
          1 + (1 + (k2.toList.length + (1 + (1 + ((sJson v2).length + (fTail r2).length))))) := by
        simp [fTail]
        omega
      have hmax : max (jsize v) (fsize ((k2, v2) :: r2)) ≤
          (sJson v).length + ((sJson v2).length + (fTail r2).length) :=
        Nat.max_le.mpr ⟨by omega, by omega⟩
      omega

/-- Serializing a safe JSON document and parsing it back yields the same
document (model of `JSON.parse(JSON.stringify(x))`). -/
theorem parseJson_stringify (v : Json) (h : safeJson v = true) :
    parseJson (stringifyJson v) = some v := by
  have hfuel : jsize v ≤ (sJson v).length + 1 :=
    le_trans ((sizes_bound (sizeOf v)).1 v le_rfl) (by omega)
  have hP := (parse_aux ((sJson v).length + 1)).1 v [] h hfuel rfl
  unfold parseJson stringifyJson
  have hl : (String.mk (sJson v)).toList = sJson v := rfl
  rw [hl]
  rw [show sJson v = sJson v ++ [] by simp] at hP
  simp only [List.append_nil] at hP ⊢
  rw [hP]
  rfl

/-- Right identity of bind for `Except`. -/
theorem except_bind_pure {α : Type} (e : Except String α) :
    (e >>= fun a => (pure a : Except String α)) = e := by
  cases e <;> rfl

/-- Right identity of bind for `Except`, `.ok` form. -/
theorem except_bind_ok {α : Type} (e : Except String α) :
    (e >>= fun a => (Except.ok a : Except String α)) = e := by
  cases e <;> rfl

/-- `pure` on `Except` is `.ok`. -/
theorem except_pure_eq_ok {α : Type} (a : α) : (pure a : Except String α) = Except.ok a := rfl

/-- Left identity of bind for `Except`. -/
theorem except_ok_bind {α β : Type} (a : α) (f : α → Except String β) :
    (Except.ok a >>= f) = f a := rfl

/-- `addStylingDependencies` equals its write-list normal form. -/
theorem addStyling_decomp (V : Versions) (o : ProjectOptions) (p : Pkg) :
    addStylingDependencies V o p = applyWrites (stylingWrites V o) (norm2 p) := by
  unfold addStylingDependencies stylingWrites norm2
  cases ht : o.typescript <;>
    split <;>
    by_cases hfr : o.framework = "react" <;>
    simp [hfr, applyWrites, except_bind_pure, except_bind_ok, except_pure_eq_ok, except_ok_bind,
      bind_assoc]

/-- Bind of an error for `Except`. -/
theorem except_error_bind {α β : Type} (e : String) (f : α → Except String β) :
    ((Except.error e : Except String α) >>= f) = .error e := rfl

/-- `addFrameworkDependencies` equals its write-list normal form. -/
theorem addFramework_decomp (V : Versions) (o : ProjectOptions) (p : Pkg) :
    addFrameworkDependencies V o p = applyWrites (frameworkWrites V o) p := by
  unfold addFrameworkDependencies frameworkWrites
  cases ht : o.typescript <;>
    split <;>
    simp [applyWrites, except_bind_pure, except_bind_ok, except_pure_eq_ok, except_ok_bind,
      bind_assoc]

/-- `addStateManagementDependencies` equals its write-list normal form. -/
theorem sm_decomp (V : Versions) (o : ProjectOptions) (p : Pkg) :
    addStateManagementDependencies V o p = applyWrites (smWrites V o) p := by
  unfold addStateManagementDependencies smWrites
  split <;>
    simp [applyWrites, except_bind_pure, except_bind_ok, except_pure_eq_ok, except_ok_bind,
      bind_assoc]

/-- `addApiClientDependencies` equals its write-list normal form. -/
theorem api_decomp (V : Versions) (o : ProjectOptions) (p : Pkg) :
    addApiClientDependencies V o p = applyWrites (apiWrites V o) p := by
  unfold addApiClientDependencies apiWrites
  split <;>
    by_cases hfr : o.framework = "react" <;>
    simp [hfr, applyWrites, except_bind_pure, except_bind_ok, except_pure_eq_ok, except_ok_bind,
      bind_assoc]

/-- `addI18nDependencies` equals its write-list normal form. -/
theorem i18n_decomp (V : Versions) (o : ProjectOptions) (p : Pkg) :
    addI18nDependencies V o p = applyWrites (i18nWrites V o) p := by
  unfold addI18nDependencies i18nWrites
  split <;>
    simp [applyWrites, except_bind_pure, except_bind_ok, except_pure_eq_ok, except_ok_bind,
      bind_assoc]

/-- Congruence of bind for `Except`. -/
theorem except_bind_congr {α β : Type} {e1 e2 : Except String α}
    {f1 f2 : α → Except String β} (he : e1 = e2) (hf : ∀ a, f1 a = f2 a) :
    e1 >>= f1 = e2 >>= f2 := by
  subst he
  cases e1 with
  | error e => rfl
  | ok a => exact hf a

/-- `addFeatureDependencies` equals its block normal form: normalize the
three mapping fields, apply the framework writes, run the eight feature
blocks in order, then the state-management and API-client steps. -/
theorem addFeature_decomp (V : Versions) (o : ProjectOptions) (p : Pkg) :
    addFeatureDependencies V o p =
      applyWrites (frameworkWrites V o) (norm3 p) >>= fun q =>
        runBlocks V o featOrder q >>= fun q2 =>
          smStep V o q2 >>= apiStep V o := by
  unfold addFeatureDependencies norm3
  simp only [addFramework_decomp, featOrder, runBlocks, bind_assoc, except_ok_bind]
  refine except_bind_congr rfl (fun q => ?_)
  refine except_bind_congr ?_ (fun q => ?_)
  · split <;> simp [featureWrites, applyWrites, except_bind_ok, except_pure_eq_ok, except_ok_bind]
  refine except_bind_congr ?_ (fun q => ?_)
  · split <;> simp [featureWrites, applyWrites, except_bind_ok, except_pure_eq_ok, except_ok_bind]
  refine except_bind_congr ?_ (fun q => ?_)
  · split <;> simp [featureWrites, applyWrites, except_bind_ok, except_pure_eq_ok, except_ok_bind]
  refine except_bind_congr ?_ (fun q => ?_)
  · split <;> simp [featureWrites, applyWrites, except_bind_ok, except_pure_eq_ok, except_ok_bind]
  refine except_bind_congr ?_ (fun q => ?_)
  · split <;> simp [featureWrites, applyWrites, except_bind_ok, except_pure_eq_ok, except_ok_bind]
  refine except_bind_congr ?_ (fun q => ?_)
  · split <;> simp [featureWrites, applyWrites, except_bind_ok, except_pure_eq_ok, except_ok_bind]
  refine except_bind_congr ?_ (fun q => ?_)
  · split <;> simp [featureWrites, applyWrites, except_bind_ok, except_pure_eq_ok, except_ok_bind]
  refine except_bind_congr ?_ (fun q => ?_)
  · split <;> simp [featureWrites, applyWrites, i18n_decomp, except_bind_ok, except_pure_eq_ok,
      except_ok_bind]
  refine except_bind_congr ?_ (fun q => ?_)
  · simp only [smStep, sm_decomp, except_pure_eq_ok]
  · simp only [apiStep, api_decomp, except_pure_eq_ok]

/-- `customizePackageJson` in staged form: the normalization prefix
followed by the two dependency helpers, validation, and the result. -/
theorem customize_eq (V : Versions) (o : ProjectOptions) (tpl : Pkg) :
    customizePackageJson V o (some tpl) =
      addStylingDependencies V o (initPkg o tpl) >>= fun pkg =>
        addFeatureDependencies V o pkg >>= fun pkg =>
          validatePkg pkg >>= fun _ => pure (some pkg) := rfl

/-- A successful nested write leaves every other top-level field
unchanged. -/
theorem setNested_ok_frame (p : Pkg) (f k : String) (v : Json) (q : Pkg)
    (h : setNested p f k v = .ok q) (fld : String) (hne : fld ≠ f) :
    getField q fld = getField p fld := by
  unfold setNested at h
  split at h
  · injection h with h2
    subst h2
    exact getField_setField_ne p f _ fld hne
  · injection h with h2
    subst h2
    rfl
  · exact Except.noConfusion h
  · exact Except.noConfusion h

/-- A successful nested write preserves the shape of every top-level
field. -/
theorem setNested_ok_shape (p : Pkg) (f k : String) (v : Json) (q : Pkg)
    (h : setNested p f k v = .ok q) (fld : String) :
    fieldShape (getField q fld) = fieldShape (getField p fld) := by
  by_cases hf : fld = f
  · subst hf
    unfold setNested at h
    split at h
    · rename_i m hm
      injection h with h2
      subst h2
      rw [getField_setField_self, hm]
      rfl
    · injection h with h2
      subst h2
      rfl
    · exact Except.noConfusion h
    · exact Except.noConfusion h
  · rw [setNested_ok_frame p f k v q h fld hf]

/-- A successful nested write leaves every other nested entry
unchanged. -/
theorem setNested_ok_inner (p : Pkg) (f k : String) (v : Json) (q : Pkg)
    (h : setNested p f k v = .ok q) (fld key : String)
    (hne : ¬(fld = f ∧ key = k)) :
    innerGet q fld key = innerGet p fld key := by
  by_cases hf : fld = f
  · subst hf
    have hk : key ≠ k := fun hk => hne ⟨rfl, hk⟩
    unfold setNested at h
    split at h
    · rename_i m hm
      injection h with h2
      subst h2
      unfold innerGet
      rw [getField_setField_self, hm]
      exact getField_setField_ne m k v key hk
    · injection h with h2
      subst h2
      rfl
    · exact Except.noConfusion h
    · exact Except.noConfusion h
  · unfold innerGet
    rw [setNested_ok_frame p f k v q h fld hf]

/-- A successful nested write into an object-valued field stores exactly
the written value. -/
theorem setNested_ok_self (p : Pkg) (f k : String) (v : Json)
    (m : List (String × Json)) (q : Pkg)
    (hm : getField p f = some (.obj m)) (h : setNested p f k v = .ok q) :
    innerGet q f k = some v := by
  unfold setNested at h
  rw [hm] at h
  injection h with h2
  subst h2
  unfold innerGet
  rw [getField_setField_self]
  exact getField_setField_self m k v

/-- A membership helper: a field inside `mapFields` differs from one
outside it. -/
theorem contains_ne_of_contains_false {l : List String} {a b : String}
    (ha : l.contains a = true) (hb : l.contains b = false) : b ≠ a := by
  intro he
  subst he
  rw [ha] at hb
  exact Bool.noConfusion hb

/-- A successful write-list application leaves every field outside the
mapping fields unchanged. -/
theorem applyWrites_ok_outer : ∀ (ws : List ManifestWrite) (p q : Pkg),
    applyWrites ws p = .ok q → fieldsIn ws = true →
    ∀ fld, mapFields.contains fld = false →
    getField q fld = getField p fld := by
  intro ws
  induction ws with
  | nil =>
    intro p q h _ fld _
    injection h with h2
    subst h2
    rfl
  | cons w ws ih =>
    obtain ⟨f, k, v⟩ := w
    intro p q h hf fld hfld
    simp only [applyWrites] at h
    simp only [fieldsIn, List.all_cons, Bool.and_eq_true] at hf
    cases hs : setNested p f k v with
    | error e =>
      rw [hs] at h
      exact Except.noConfusion h
    | ok r =>
      rw [hs] at h
      simp only [except_ok_bind] at h
      have h1 := ih r q h hf.2 fld hfld
      rw [h1]
      exact setNested_ok_frame p f k v r hs fld (contains_ne_of_contains_false hf.1 hfld)

/-- A successful write-list application preserves the shape of every
top-level field. -/
theorem applyWrites_ok_shape : ∀ (ws : List ManifestWrite) (p q : Pkg),
    applyWrites ws p = .ok q →
    ∀ fld, fieldShape (getField q fld) = fieldShape (getField p fld) := by
  intro ws
  induction ws with
  | nil =>
    intro p q h fld
    injection h with h2
    subst h2
    rfl
  | cons w ws ih =>
    obtain ⟨f, k, v⟩ := w
    intro p q h fld
    simp only [applyWrites] at h
    cases hs : setNested p f k v with
    | error e =>
      rw [hs] at h
      exact Except.noConfusion h
    | ok r =>
      rw [hs] at h
      simp only [except_ok_bind] at h
      rw [ih r q h fld]
      exact setNested_ok_shape p f k v r hs fld

/-- A successful write-list application leaves every nested entry it does
not target unchanged. -/
theorem applyWrites_ok_inner : ∀ (ws : List ManifestWrite) (p q : Pkg),
    applyWrites ws p = .ok q →
    ∀ fld key, avoids ws fld key = true →
    innerGet q fld key = innerGet p fld key := by
  intro ws
  induction ws with
  | nil =>
    intro p q h fld key _
    injection h with h2
    subst h2
    rfl
  | cons w ws ih =>
    obtain ⟨f, k, v⟩ := w
    intro p q h fld key ha
    simp only [applyWrites] at h
    simp only [avoids, List.all_cons, Bool.and_eq_true] at ha
    cases hs : setNested p f k v with
    | error e =>
      rw [hs] at h
      exact Except.noConfusion h
    | ok r =>
      rw [hs] at h
      simp only [except_ok_bind] at h
      rw [ih r q h fld key ha.2]
      refine setNested_ok_inner p f k v r hs fld key ?_
      rintro ⟨rfl, rfl⟩
      simp at ha

/-- All styling writes land in the mapping fields. -/
theorem fieldsIn_styling (V : Versions) (o : ProjectOptions) :
    fieldsIn (stylingWrites V o) = true := by
  unfold fieldsIn stylingWrites
  split <;> (try split) <;> (try split) <;> rfl

/-- All framework writes land in the mapping fields. -/
theorem fieldsIn_framework (V : Versions) (o : ProjectOptions) :
    fieldsIn (frameworkWrites V o) = true := by
  unfold fieldsIn frameworkWrites
  split <;> (try split) <;> (try split) <;> rfl

/-- All state-management writes land in the mapping fields. -/
theorem fieldsIn_sm (V : Versions) (o : ProjectOptions) :
    fieldsIn (smWrites V o) = true := by
  unfold fieldsIn smWrites
  split <;> (try split) <;> (try split) <;> rfl

/-- All API-client writes land in the mapping fields. -/
theorem fieldsIn_api (V : Versions) (o : ProjectOptions) :
    fieldsIn (apiWrites V o) = true := by
  unfold fieldsIn apiWrites
  split <;> (try split) <;> (try split) <;> rfl

/-- All i18n writes land in the mapping fields. -/
theorem fieldsIn_i18n (V : Versions) (o : ProjectOptions) :
    fieldsIn (i18nWrites V o) = true := by
  unfold fieldsIn i18nWrites
  split <;> (try split) <;> (try split) <;> rfl

/-- All writes of every feature block land in the mapping fields. -/
theorem fieldsIn_feature (V : Versions) (o : ProjectOptions) (g : String) :
    fieldsIn (featureWrites V o g) = true := by
  unfold featureWrites
  split
  · rfl
  · rfl
  · rfl
  · rfl
  · rfl
  · rfl
  · rfl
  · exact fieldsIn_i18n V o
  · rfl

/-- Running the feature blocks leaves every field outside the mapping
fields unchanged. -/
theorem runBlocks_ok_outer (V : Versions) (o : ProjectOptions) :
    ∀ (gs : List String) (p q : Pkg),
    runBlocks V o gs p = .ok q →
    ∀ fld, mapFields.contains fld = false →
    getField q fld = getField p fld := by
  intro gs
  induction gs with
  | nil =>
    intro p q h fld _
    injection h with h2
    subst h2
    rfl
  | cons g gs ih =>
    intro p q h fld hfld
    simp only [runBlocks] at h
    by_cases hg : o.features.contains g = true
    · rw [if_pos hg] at h
      cases hs : applyWrites (featureWrites V o g) p with
      | error e =>
        rw [hs] at h
        exact Except.noConfusion h
      | ok r =>
        rw [hs] at h
        simp only [except_ok_bind] at h
        rw [ih r q h fld hfld]
        exact applyWrites_ok_outer (featureWrites V o g) p r hs (fieldsIn_feature V o g) fld hfld
    · rw [if_neg hg] at h
      simp only [except_ok_bind] at h
      exact ih p q h fld hfld

/-- The two-field normalization changes no field outside the mapping
fields. -/
theorem norm2_outer (p : Pkg) (fld : String) (hfld : mapFields.contains fld = false) :
    getField (norm2 p) fld = getField p fld := by
  have h1 : fld ≠ "devDependencies" := by
    intro he; subst he; exact Bool.noConfusion hfld
  have h2 : fld ≠ "dependencies" := by
    intro he; subst he; exact Bool.noConfusion hfld
  unfold norm2
  rw [getField_setField_ne _ _ _ _ h2, getField_setField_ne _ _ _ _ h1]

/-- The three-field normalization changes no field outside the mapping
fields. -/
theorem norm3_outer (p : Pkg) (fld : String) (hfld : mapFields.contains fld = false) :
    getField (norm3 p) fld = getField p fld := by
  have h1 : fld ≠ "dependencies" := by
    intro he; subst he; exact Bool.noConfusion hfld
  have h2 : fld ≠ "devDependencies" := by
    intro he; subst he; exact Bool.noConfusion hfld
  have h3 : fld ≠ "scripts" := by
    intro he; subst he; exact Bool.noConfusion hfld
  unfold norm3
  rw [getField_setField_ne _ _ _ _ h3, getField_setField_ne _ _ _ _ h2,
    getField_setField_ne _ _ _ _ h1]

/-- The normalization prefix stores the Selection's project name. -/
theorem initPkg_name (o : ProjectOptions) (tpl : Pkg) :
    getField (initPkg o tpl) "name" = some (.str o.name) := by
  simp only [initPkg]
  split <;> split <;>
    simp only [getField_setField_ne _ _ _ _ (by decide : "name" ≠ "license"),
      getField_setField_ne _ _ _ _ (by decide : "name" ≠ "description"),
      getField_setField_ne _ _ _ _ (by decide : "name" ≠ "devDependencies"),
      getField_setField_ne _ _ _ _ (by decide : "name" ≠ "dependencies"),
      getField_setField_ne _ _ _ _ (by decide : "name" ≠ "scripts"),
      getField_setField_ne _ _ _ _ (by decide : "name" ≠ "type"),
      getField_setField_ne _ _ _ _ (by decide : "name" ≠ "version"),
      getField_setField_self]

/-- The normalization prefix stores the defaulted version value. -/
theorem initPkg_version (o : ProjectOptions) (tpl : Pkg) :
    getField (initPkg o tpl) "version" =
      some (jsOr (getField tpl "version") (.str "1.0.0")) := by
  simp only [initPkg]
  split <;> split <;>
    simp only [getField_setField_ne _ _ _ _ (by decide : "version" ≠ "license"),
      getField_setField_ne _ _ _ _ (by decide : "version" ≠ "description"),
      getField_setField_ne _ _ _ _ (by decide : "version" ≠ "devDependencies"),
      getField_setField_ne _ _ _ _ (by decide : "version" ≠ "dependencies"),
      getField_setField_ne _ _ _ _ (by decide : "version" ≠ "scripts"),
      getField_setField_ne _ _ _ _ (by decide : "version" ≠ "type"),
      getField_setField_ne _ _ _ _ (by decide : "version" ≠ "name"),
      getField_setField_self]

/-- A successful name check yields a non-blank string name. -/
theorem checkName_ok (pkg : Pkg) (h : checkName pkg = .ok ()) :
    ∃ s, getField pkg "name" = some (.str s) ∧ trimStr s ≠ "" := by
  unfold checkName at h
  split at h
  · rename_i s heq
    by_cases hs : trimStr s = ""
    · rw [if_pos hs] at h
      exact Except.noConfusion h
    · exact ⟨s, heq, hs⟩
  · exact Except.noConfusion h

/-- A successful version check yields a string version. -/
theorem checkVersion_ok (pkg : Pkg) (h : checkVersion pkg = .ok ()) :
    ∃ s, getField pkg "version" = some (.str s) := by
  unfold checkVersion at h
  split at h
  · rename_i s heq
    exact ⟨s, heq⟩
  · exact Except.noConfusion h

/-- A successful type check yields exactly the module marker. -/
theorem checkType_ok (pkg : Pkg) (h : checkType pkg = .ok ()) :
    getField pkg "type" = some (.str "module") := by
  unfold checkType at h
  split at h
  · rename_i s heq
    by_cases hs : s = "module"
    · subst hs
      exact heq
    · rw [if_neg hs] at h
      exact Except.noConfusion h
  · exact Except.noConfusion h

/-- A successful object check yields a present object-typed field. -/
theorem checkObjField_ok (pkg : Pkg) (f : String) (h : checkObjField pkg f = .ok ()) :
    ∃ v, getField pkg f = some v ∧ isJsObject v = true := by
  unfold checkObjField at h
  split at h
  · rename_i v heq
    by_cases hv : isJsObject v = true
    · exact ⟨v, heq, hv⟩
    · rw [if_neg (by simpa using hv)] at h
      exact Except.noConfusion h
  · exact Except.noConfusion h

/-- Everything a successful validation guarantees about the manifest. -/
theorem validate_ok_facts (m : Pkg) (h : validatePkg m = .ok ()) :
    (∃ s, getField m "name" = some (.str s) ∧ trimStr s ≠ "") ∧
    (∃ s, getField m "version" = some (.str s)) ∧
    getField m "type" = some (.str "module") ∧
    (∃ v, getField m "scripts" = some v ∧ isJsObject v = true) ∧
    (∃ v, getField m "dependencies" = some v ∧ isJsObject v = true) ∧
    (∃ v, getField m "devDependencies" = some v ∧ isJsObject v = true) := by
  unfold validatePkg at h
  cases h0 : checkRequired m ["name", "version", "type", "scripts", "dependencies",
      "devDependencies"] with
  | error e =>
    rw [h0] at h
    exact Except.noConfusion h
  | ok u =>
    rw [h0] at h
    simp only [except_ok_bind] at h
    cases h1 : checkName m with
    | error e =>
      rw [h1] at h
      exact Except.noConfusion h
    | ok u1 =>
      rw [h1] at h
      simp only [except_ok_bind] at h
      cases h2 : checkVersion m with
      | error e =>
        rw [h2] at h
        exact Except.noConfusion h
      | ok u2 =>
        rw [h2] at h
        simp only [except_ok_bind] at h
        cases h3 : checkType m with
        | error e =>
          rw [h3] at h
          exact Except.noConfusion h
        | ok u3 =>
          rw [h3] at h
          simp only [except_ok_bind] at h
          cases h4 : checkObjField m "scripts" with
          | error e =>
            rw [h4] at h
            exact Except.noConfusion h
          | ok u4 =>
            rw [h4] at h
            simp only [except_ok_bind] at h
            cases h5 : checkObjField m "dependencies" with
            | error e =>
              rw [h5] at h
              exact Except.noConfusion h
            | ok u5 =>
              rw [h5] at h
              simp only [except_ok_bind] at h
              obtain ⟨⟩ := u1
              obtain ⟨⟩ := u2
              obtain ⟨⟩ := u3
              obtain ⟨⟩ := u4
              obtain ⟨⟩ := u5
              exact ⟨checkName_ok m h1, checkVersion_ok m h2, checkType_ok m h3,
                checkObjField_ok m "scripts" h4, checkObjField_ok m "dependencies" h5,
                checkObjField_ok m "devDependencies" h⟩

/-- A successful customization run decomposes into its staged write
lists, all succeeding, with the final manifest validated. -/
theorem customize_stages (V : Versions) (o : ProjectOptions) (tpl m : Pkg)
    (h : customizePackageJson V o (some tpl) = .ok (some m)) :
    ∃ a b c d,
      applyWrites (stylingWrites V o) (norm2 (initPkg o tpl)) = .ok a ∧
      applyWrites (frameworkWrites V o) (norm3 a) = .ok b ∧
      runBlocks V o featOrder b = .ok c ∧
      smStep V o c = .ok d ∧
      apiStep V o d = .ok m ∧
      validatePkg m = .ok () := by
  rw [customize_eq, addStyling_decomp] at h
  cases h1 : applyWrites (stylingWrites V o) (norm2 (initPkg o tpl)) with
  | error e =>
    rw [h1] at h
    exact Except.noConfusion h
  | ok a =>
    rw [h1] at h
    simp only [except_ok_bind] at h
    rw [addFeature_decomp] at h
    simp only [bind_assoc] at h
    cases h2 : applyWrites (frameworkWrites V o) (norm3 a) with
    | error e =>
      rw [h2] at h
      exact Except.noConfusion h
    | ok b =>
      rw [h2] at h
      simp only [except_ok_bind] at h
      cases h3 : runBlocks V o featOrder b with
      | error e =>
        rw [h3] at h
        exact Except.noConfusion h
      | ok c =>
        rw [h3] at h
        simp only [except_ok_bind] at h
        cases h4 : smStep V o c with
        | error e =>
          rw [h4] at h
          exact Except.noConfusion h
        | ok d =>
          rw [h4] at h
          simp only [except_ok_bind] at h
          cases h5 : apiStep V o d with
          | error e =>
            rw [h5] at h
            exact Except.noConfusion h
          | ok p =>
            rw [h5] at h
            simp only [except_ok_bind] at h
            cases h6 : validatePkg p with
            | error e =>
              rw [h6] at h
              exact Except.noConfusion h
            | ok u =>
              rw [h6] at h
              simp only [except_ok_bind, except_pure_eq_ok] at h
              injection h with h7
              injection h7 with h8
              subst h8
              obtain ⟨⟩ := u
              exact ⟨a, b, c, d, rfl, h2, h3, h4, h5, h6⟩

/-- Through a successful customization run, every field outside the three
mapping fields keeps its normalization-prefix value. -/
theorem customize_outer (V : Versions) (o : ProjectOptions) (tpl m : Pkg)
    (h : customizePackageJson V o (some tpl) = .ok (some m)) :
    ∀ fld, mapFields.contains fld = false →
      getField m fld = getField (initPkg o tpl) fld := by
  obtain ⟨a, b, c, d, h1, h2, h3, h4, h5, hv⟩ := customize_stages V o tpl m h
  intro fld hf
  have e5 : getField m fld = getField d fld := by
    unfold apiStep at h5
    split at h5
    · exact applyWrites_ok_outer _ d m h5 (fieldsIn_api V o) fld hf
    · injection h5 with hh
      subst hh
      rfl
  have e4 : getField d fld = getField c fld := by
    unfold smStep at h4
    split at h4
    · exact applyWrites_ok_outer _ c d h4 (fieldsIn_sm V o) fld hf
    · injection h4 with hh
      subst hh
      rfl
  have e3 : getField c fld = getField b fld :=
    runBlocks_ok_outer V o featOrder b c h3 fld hf
  have e2 : getField b fld = getField (norm3 a) fld :=
    applyWrites_ok_outer _ _ b h2 (fieldsIn_framework V o) fld hf
  have e1 : getField a fld = getField (norm2 (initPkg o tpl)) fld :=
    applyWrites_ok_outer _ _ a h1 (fieldsIn_styling V o) fld hf
  rw [e5, e4, e3, e2, norm3_outer a fld hf, e1, norm2_outer _ fld hf]

/-- C4: for every Selection whose template supplies a `package.json`, the
written manifest carries the Selection's name, a string version
(defaulting to "1.0.0" when the template supplied none), the fixed
module-type marker, and object-typed `scripts`, `dependencies` and
`devDependencies`; serializing the manifest and parsing it back yields
the manifest again. -/
theorem c4_manifest_fields (V : Versions) (o : ProjectOptions) (tpl m : Pkg)
    (h : customizePackageJson V o (some tpl) = .ok (some m)) :
    getField m "name" = some (.str o.name) ∧
    (∃ s, getField m "version" = some (.str s)) ∧
    (truthyOpt (getField tpl "version") = false →
      getField m "version" = some (.str "1.0.0")) ∧
    getField m "type" = some (.str "module") ∧
    (∃ v, getField m "scripts" = some v ∧ isJsObject v = true) ∧
    (∃ v, getField m "dependencies" = some v ∧ isJsObject v = true) ∧
    (∃ v, getField m "devDependencies" = some v ∧ isJsObject v = true) ∧
    (safeJson (.obj m) = true → parseJson (stringifyJson (.obj m)) = some (.obj m)) := by
  have hv : validatePkg m = .ok () := by
    obtain ⟨a, b, c, d, _, _, _, _, _, hv⟩ := customize_stages V o tpl m h
    exact hv
  obtain ⟨hn, hver, hty, hs, hd, hdd⟩ := validate_ok_facts m hv
  have fr := customize_outer V o tpl m h
  have hname : getField m "name" = some (.str o.name) := by
    rw [fr "name" rfl]
    exact initPkg_name o tpl
  have hver10 : truthyOpt (getField tpl "version") = false →
      getField m "version" = some (.str "1.0.0") := by
    intro htv
    rw [fr "version" rfl, initPkg_version o tpl]
    cases hx : getField tpl "version" with
    | none => rfl
    | some v =>
      rw [hx] at htv
      simp only [truthyOpt] at htv
      simp [jsOr, htv]
  exact ⟨hname, hver, hver10, hty, hs, hd, hdd, fun hsafe => parseJson_stringify _ hsafe⟩

/-- Witness: the concrete plain-React run from the base template. -/
theorem c4_manifest_fields_witness :
    getField c4pkg "name" = some (.str optsPlain.name) ∧
    (∃ s, getField c4pkg "version" = some (.str s)) ∧
    (truthyOpt (getField basePkg "version") = false →
      getField c4pkg "version" = some (.str "1.0.0")) ∧
    getField c4pkg "type" = some (.str "module") ∧
    (∃ v, getField c4pkg "scripts" = some v ∧ isJsObject v = true) ∧
    (∃ v, getField c4pkg "dependencies" = some v ∧ isJsObject v = true) ∧
    (∃ v, getField c4pkg "devDependencies" = some v ∧ isJsObject v = true) ∧
    (safeJson (.obj c4pkg) = true →
      parseJson (stringifyJson (.obj c4pkg)) = some (.obj c4pkg)) :=
  c4_manifest_fields sampleVersions optsPlain basePkg c4pkg (by rfl)

/-- An object-shaped field is an object. -/
theorem fieldShape_obj {x : Option Json} (h : fieldShape x = 0) :
    ∃ m, x = some (.obj m) := by
  cases x with
  | none => exact absurd h (by simp [fieldShape])
  | some v =>
    cases v with
    | obj m => exact ⟨m, rfl⟩
    | null => exact absurd h (by simp [fieldShape])
    | bool b => exact absurd h (by simp [fieldShape])
    | num n => exact absurd h (by simp [fieldShape])
    | str s => exact absurd h (by simp [fieldShape])
    | arr xs => exact absurd h (by simp [fieldShape])

/-- An array-shaped field is an array. -/
theorem fieldShape_arr {x : Option Json} (h : fieldShape x = 1) :
    ∃ xs, x = some (.arr xs) := by
  cases x with
  | none => exact absurd h (by simp [fieldShape])
  | some v =>
    cases v with
    | arr xs => exact ⟨xs, rfl⟩
    | null => exact absurd h (by simp [fieldShape])
    | bool b => exact absurd h (by simp [fieldShape])
    | num n => exact absurd h (by simp [fieldShape])
    | str s => exact absurd h (by simp [fieldShape])
    | obj m => exact absurd h (by simp [fieldShape])

/-- The same nested write applied to two related manifests keeps them
related. -/
theorem setNested_sync (C : List (String × String)) (p p' q q' : Pkg)
    (f k : String) (v : Json)
    (h : setNested p f k v = .ok q) (h' : setNested p' f k v = .ok q')
    (hmf : mapFields.contains f = true) (hrel : PkgRel C p p') :
    PkgRel C q q' := by
  obtain ⟨r1, r2, r3⟩ := hrel
  refine ⟨?_, ?_, ?_⟩
  · intro fld hfld
    have hne : fld ≠ f := contains_ne_of_contains_false hmf hfld
    rw [setNested_ok_frame p' f k v q' h' fld hne,
      setNested_ok_frame p f k v q h fld hne]
    exact r1 fld hfld
  · intro fld
    rw [setNested_ok_shape p' f k v q' h' fld, setNested_ok_shape p f k v q h fld]
    exact r2 fld
  · intro fld key hC
    by_cases htg : fld = f ∧ key = k
    · obtain ⟨rfl, rfl⟩ := htg
      unfold setNested at h
      split at h
      · rename_i mp hmp
        injection h with h2
        subst h2
        have hsh : fieldShape (getField p' fld) = 0 := by
          rw [r2 fld, hmp]
          rfl
        obtain ⟨mp', hmp'⟩ := fieldShape_obj hsh
        rw [setNested_ok_self p' fld key v mp' q' hmp' h']
        unfold innerGet
        rw [getField_setField_self]
        exact (getField_setField_self mp key v).symm
      · rename_i xs hxs
        injection h with h2
        subst h2
        have hsh : fieldShape (getField p' fld) = 1 := by
          rw [r2 fld, hxs]
          rfl
        obtain ⟨xs', hxs'⟩ := fieldShape_arr hsh
        have hq' : q' = p' := by
          unfold setNested at h'
          rw [hxs'] at h'
          injection h' with h2
          exact h2.symm
        subst hq'
        unfold innerGet
        rw [hxs, hxs']
      · exact Except.noConfusion h
      · exact Except.noConfusion h
    · rw [setNested_ok_inner p' f k v q' h' fld key htg,
        setNested_ok_inner p f k v q h fld key htg]
      exact r3 fld key hC

/-- A nested write at an excluded target applied to one side only keeps
the two manifests related. -/
theorem setNested_asym (C : List (String × String)) (p p' q' : Pkg)
    (f k : String) (v : Json)
    (h' : setNested p' f k v = .ok q')
    (hmf : mapFields.contains f = true)
    (hCt : C.contains (f, k) = true) (hrel : PkgRel C p p') : PkgRel C p q' := by
  obtain ⟨r1, r2, r3⟩ := hrel
  refine ⟨?_, ?_, ?_⟩
  · intro fld hfld
    have hne : fld ≠ f := contains_ne_of_contains_false hmf hfld
    rw [setNested_ok_frame p' f k v q' h' fld hne]
    exact r1 fld hfld
  · intro fld
    rw [setNested_ok_shape p' f k v q' h' fld]
    exact r2 fld
  · intro fld key hC
    have hne : ¬(fld = f ∧ key = k) := by
      rintro ⟨rfl, rfl⟩
      rw [hCt] at hC
      exact Bool.noConfusion hC
    rw [setNested_ok_inner p' f k v q' h' fld key hne]
    exact r3 fld key hC

/-- The same write list applied to two related manifests keeps them
related. -/
theorem applyWrites_sync : ∀ (ws : List ManifestWrite) (C : List (String × String))
    (p p' q q' : Pkg),
    applyWrites ws p = .ok q → applyWrites ws p' = .ok q' →
    fieldsIn ws = true → PkgRel C p p' → PkgRel C q q' := by
  intro ws
  induction ws with
  | nil =>
    intro C p p' q q' h h' _ hrel
    injection h with e
    injection h' with e'
    subst e
    subst e'
    exact hrel
  | cons w ws ih =>
    obtain ⟨f, k, v⟩ := w
    intro C p p' q q' h h' hf hrel
    simp only [applyWrites] at h h'
    simp only [fieldsIn, List.all_cons, Bool.and_eq_true] at hf
    cases hs : setNested p f k v with
    | error e =>
      rw [hs] at h
      exact Except.noConfusion h
    | ok r =>
      rw [hs] at h
      simp only [except_ok_bind] at h
      cases hs' : setNested p' f k v with
      | error e =>
        rw [hs'] at h'
        exact Except.noConfusion h'
      | ok r' =>
        rw [hs'] at h'
        simp only [except_ok_bind] at h'
        exact ih C r r' q q' h h' hf.2
          (setNested_sync C p p' r r' f k v hs hs' hf.1 hrel)

/-- A write list all of whose targets are excluded, applied to one side
only, keeps the two manifests related. -/
theorem applyWrites_asym : ∀ (ws : List ManifestWrite) (C : List (String × String))
    (p p' q' : Pkg),
    applyWrites ws p' = .ok q' → fieldsIn ws = true →
    (writeTargets ws).all (fun t => C.contains t) = true →
    PkgRel C p p' → PkgRel C p q' := by
  intro ws
  induction ws with
  | nil =>
    intro C p p' q' h' _ _ hrel
    injection h' with e'
    subst e'
    exact hrel
  | cons w ws ih =>
    obtain ⟨f, k, v⟩ := w
    intro C p p' q' h' hf hT hrel
    simp only [applyWrites] at h'
    simp only [fieldsIn, List.all_cons, Bool.and_eq_true] at hf
    simp only [writeTargets, List.map_cons, List.all_cons, Bool.and_eq_true] at hT
    cases hs' : setNested p' f k v with
    | error e =>
      rw [hs'] at h'
      exact Except.noConfusion h'
    | ok r' =>
      rw [hs'] at h'
      simp only [except_ok_bind] at h'
      refine ih C p r' q' h' hf.2 ?_ (setNested_asym C p p' r' f k v hs' hf.1 hT.1 hrel)
      simp only [writeTargets]
      exact hT.2

/-- Membership in a list with one flag appended. -/
theorem contains_append_single (l : List String) (f g : String) (hg : g ≠ f) :
    (l ++ [f]).contains g = l.contains g := by
  induction l with
  | nil =>
    simp only [List.nil_append, List.contains_cons, List.contains_nil, Bool.or_false,
      beq_eq_false_iff_ne]
    simp [hg]
  | cons a as ih =>
    simp only [List.cons_append, List.contains_cons] at *
    rw [ih]

/-- The appended flag is a member. -/
theorem contains_append_self (l : List String) (f : String) :
    (l ++ [f]).contains f = true := by
  induction l with
  | nil => simp
  | cons a as ih =>
    simp only [List.cons_append, List.contains_cons, ih, Bool.or_true]

/-- Every element of a list is contained in it. -/
theorem all_contains_self (l : List (String × String)) :
    (l.all fun t => l.contains t) = true := by
  simp only [List.all_eq_true, List.contains]
  intro t ht
  exact List.elem_eq_true_of_mem ht

/-- Running the feature blocks of two Selections that differ only in the
one extra flag keeps the two manifests related, with the extra flag's
write targets excluded. -/
theorem runBlocks_sync (V : Versions) (o o' : ProjectOptions) (f : String)
    (C : List (String × String))
    (hw : ∀ g, featureWrites V o' g = featureWrites V o g)
    (hc : ∀ g, g ≠ f → o'.features.contains g = o.features.contains g)
    (hcf : o.features.contains f = false) (hcf' : o'.features.contains f = true)
    (hC : ((writeTargets (featureWrites V o f)).all fun t => C.contains t) = true) :
    ∀ (gs : List String) (p p' q q' : Pkg),
      runBlocks V o gs p = .ok q → runBlocks V o' gs p' = .ok q' →
      PkgRel C p p' → PkgRel C q q' := by
  intro gs
  induction gs with
  | nil =>
    intro p p' q q' h h' hrel
    injection h with e
    injection h' with e'
    subst e
    subst e'
    exact hrel
  | cons g gs ih =>
    intro p p' q q' h h' hrel
    simp only [runBlocks] at h h'
    rw [hw g] at h'
    by_cases hg : g = f
    · subst hg
      rw [if_neg (by rw [hcf]; exact Bool.noConfusion)] at h
      rw [if_pos hcf'] at h'
      simp only [except_ok_bind] at h
      cases hs' : applyWrites (featureWrites V o g) p' with
      | error e =>
        rw [hs'] at h'
        exact Except.noConfusion h'
      | ok r' =>
        rw [hs'] at h'
        simp only [except_ok_bind] at h'
        exact ih p r' q q' h h'
          (applyWrites_asym (featureWrites V o g) C p p' r' hs'
            (fieldsIn_feature V o g) hC hrel)
    · rw [hc g hg] at h'
      by_cases hon : o.features.contains g = true
      · rw [if_pos hon] at h h'
        cases hs : applyWrites (featureWrites V o g) p with
        | error e =>
          rw [hs] at h
          exact Except.noConfusion h
        | ok r =>
          rw [hs] at h
          simp only [except_ok_bind] at h
          cases hs' : applyWrites (featureWrites V o g) p' with
          | error e =>
            rw [hs'] at h'
            exact Except.noConfusion h'
          | ok r' =>
            rw [hs'] at h'
            simp only [except_ok_bind] at h'
            exact ih r r' q q' h h'
              (applyWrites_sync (featureWrites V o g) C p p' r r' hs hs'
                (fieldsIn_feature V o g) hrel)
      · rw [if_neg hon] at h h'
        simp only [except_ok_bind] at h h'
        exact ih p p' q q' h h' hrel

/-- The state-management step applied to two related manifests keeps
them related. -/
theorem smStep_sync (V : Versions) (o : ProjectOptions) (C : List (String × String))
    (p p' q q' : Pkg)
    (h : smStep V o p = .ok q) (h' : smStep V o p' = .ok q')
    (hrel : PkgRel C p p') : PkgRel C q q' := by
  unfold smStep at h h'
  by_cases hc : truthyOptStr o.stateManagement = true
  · rw [if_pos hc] at h h'
    exact applyWrites_sync _ C p p' q q' h h' (fieldsIn_sm V o) hrel
  · rw [if_neg hc] at h h'
    injection h with e
    injection h' with e'
    subst e
    subst e'
    exact hrel

/-- The API-client step applied to two related manifests keeps them
related. -/
theorem apiStep_sync (V : Versions) (o : ProjectOptions) (C : List (String × String))
    (p p' q q' : Pkg)
    (h : apiStep V o p = .ok q) (h' : apiStep V o p' = .ok q')
    (hrel : PkgRel C p p') : PkgRel C q q' := by
  unfold apiStep at h h'
  by_cases hc : truthyOptStr o.apiClient = true
  · rw [if_pos hc] at h h'
    exact applyWrites_sync _ C p p' q q' h h' (fieldsIn_api V o) hrel
  · rw [if_neg hc] at h h'
    injection h with e
    injection h' with e'
    subst e
    subst e'
    exact hrel

/-- C7: adding one independent feature flag to a Selection changes the
produced manifest only at the dependency/script entries that flag
contributes: every field outside the three mapping fields is unchanged,
and every nested entry outside the flag's write targets is unchanged. -/
theorem c7_feature_flag_frame (V : Versions) (o o' : ProjectOptions) (f : String)
    (ho' : o' = { o with features := o.features ++ [f] })
    (hf : f ∈ featOrder) (hnew : o.features.contains f = false)
    (tpl m m' : Pkg)
    (h : customizePackageJson V o (some tpl) = .ok (some m))
    (h' : customizePackageJson V o' (some tpl) = .ok (some m')) :
    (∀ fld, mapFields.contains fld = false → getField m' fld = getField m fld) ∧
    (∀ fld key,
      (writeTargets (featureWrites V o f)).contains (fld, key) = false →
      innerGet m' fld key = innerGet m fld key) := by
  subst ho'
  obtain ⟨a, b, c, d, h1, h2, h3, h4, h5, hv⟩ := customize_stages V o tpl m h
  obtain ⟨a', b', c', d', h1', h2', h3', h4', h5', hv'⟩ :=
    customize_stages V { o with features := o.features ++ [f] } tpl m' h'
  have es : applyWrites (stylingWrites V { o with features := o.features ++ [f] })
      (norm2 (initPkg { o with features := o.features ++ [f] } tpl)) =
      applyWrites (stylingWrites V o) (norm2 (initPkg o tpl)) := rfl
  rw [es, h1] at h1'
  injection h1' with ea
  subst ea
  have ef : applyWrites (frameworkWrites V { o with features := o.features ++ [f] })
      (norm3 a) = applyWrites (frameworkWrites V o) (norm3 a) := rfl
  rw [ef, h2] at h2'
  injection h2' with eb
  subst eb
  have hrelc : PkgRel (writeTargets (featureWrites V o f)) c c' :=
    runBlocks_sync V o { o with features := o.features ++ [f] } f
      (writeTargets (featureWrites V o f))
      (fun g => rfl)
      (fun g hg => contains_append_single o.features f g hg)
      hnew
      (contains_append_self o.features f)
      (all_contains_self (writeTargets (featureWrites V o f)))
      featOrder b b c c' h3 h3'
      ⟨fun _ _ => rfl, fun _ => rfl, fun _ _ _ => rfl⟩
  have h4'' : smStep V o c' = .ok d' := h4'
  have h5'' : apiStep V o d' = .ok m' := h5'
  have hreld : PkgRel (writeTargets (featureWrites V o f)) d d' :=
    smStep_sync V o (writeTargets (featureWrites V o f)) c c' d d' h4 h4'' hrelc
  have hrelm : PkgRel (writeTargets (featureWrites V o f)) m m' :=
    apiStep_sync V o (writeTargets (featureWrites V o f)) d d' m m' h5 h5'' hreld
  exact ⟨hrelm.1, hrelm.2.2⟩

/-- Witness: the concrete plain run against the same run with the `pwa`
flag added. -/
theorem c7_feature_flag_frame_witness :
    "pwa" ∈ featOrder ∧
    optsPlain.features.contains "pwa" = false ∧
    ((∀ fld, mapFields.contains fld = false →
        getField c7pkg fld = getField c4pkg fld) ∧
     (∀ fld key,
        (writeTargets (featureWrites sampleVersions optsPlain "pwa")).contains (fld, key) =
          false →
        innerGet c7pkg fld key = innerGet c4pkg fld key)) :=
  ⟨by decide, rfl,
    c7_feature_flag_frame sampleVersions optsPlain optsPwa "pwa" rfl (by decide) rfl
      basePkg c4pkg c7pkg (by rfl) (by rfl)⟩
